import Mathlib

/-!
# The distance / spacing tracker of the brush engine

A shallow embedding of `libs/image/kis_distance_information.cpp`
(class `KisDistanceInformation`) and the properties of its spacing solvers.

Conventions of the embedding.

* `qreal` is read as an exact number: the definitions are written over an
  arbitrary linearly ordered field `K`, so that they run on `ℚ`, and the
  theorems are proved over `ℝ`, where `qSqrt`, the rotation and `M_PI` have
  their mathematical meaning (`Krita.realMath`).  The rounding of IEEE doubles
  is written out only for the elliptical solver (`anisotropicStepRounded`,
  run with `Krita.roundDouble` and `Krita.sqrtDouble`), where it decides
  whether the branch of the negative discriminant can be reached.
* `QPointF::operator==` is read as exact equality of both coordinates.
* The object behind `m_d` is the record `KisDistanceInformation.Private`;
  a member function that mutates it takes the record and returns the result
  together with the new record.
-/

namespace Krita

/-- The numeric library the tracker calls: `qSqrt`, the sine and cosine used
by `QTransform::rotateRadians`, and the constant `M_PI`. -/
structure QMath (K : Type) where
  qSqrt : K → K
  qSin : K → K
  qCos : K → K
  M_PI : K

/-- The Qt point class `QPointF`: a pair of `qreal` coordinates. -/
structure QPointF (K : Type) where
  x : K
  y : K

namespace QPointF

variable {K : Type} [LinearOrderedField K]

/-- The default-constructed point `QPointF()`, the origin. -/
def null : QPointF K := ⟨0, 0⟩

/-- The difference `p - q` of two points (`operator-` of `QPointF`). -/
def sub (p q : QPointF K) : QPointF K := ⟨p.x - q.x, p.y - q.y⟩

/-- The sum `p + q` of two points (`operator+=` of `QPointF`). -/
def add (p q : QPointF K) : QPointF K := ⟨p.x + q.x, p.y + q.y⟩

end QPointF

section Helpers

variable {K : Type} [LinearOrderedField K]

/-- The helper `pow2` of `kis_global.h`: the square of a number. -/
def pow2 (a : K) : K := a * a

/-- Modelled from the spec: `QVector2D(v).length()`, the Euclidean length
of the segment delta `v` (the class `QVector2D` is not part of this
repository). -/
def QVector2D.length (m : QMath K) (v : QPointF K) : K :=
  m.qSqrt (v.x * v.x + v.y * v.y)

/-- Modelled from the spec: `KisAlgebra2D::norm` of `kis_algebra_2d.h`, the
Euclidean distance of a point from the origin. -/
def KisAlgebra2D.norm (m : QMath K) (a : QPointF K) : K :=
  m.qSqrt (pow2 a.x + pow2 a.y)

/-- Modelled from the spec: `KisAlgebra2D::abs` of `kis_algebra_2d.h`, the
componentwise absolute value of a point. -/
def KisAlgebra2D.abs (pt : QPointF K) : QPointF K := ⟨|pt.x|, |pt.y|⟩

/-- Modelled from the spec: the map of a fresh `QTransform` that was given
`rotateRadians(a)`, i.e. the rotation of the segment delta by the angle `a`
(the class `QTransform` is not part of this repository). -/
def QTransform.rotateRadiansMap (m : QMath K) (a : K) (p : QPointF K) : QPointF K :=
  ⟨m.qCos a * p.x - m.qSin a * p.y, m.qSin a * p.x + m.qCos a * p.y⟩

end Helpers

/-- Modelled from the spec: the spacing configuration `KisSpacingInformation`
(declared in `kis_distance_information.h`, which is not among the sources):
the isotropic flag, the x/y spacing radii, the rotation angle, the
coordinate-flip flag, and the timed-spacing flag with its interval. -/
structure KisSpacingInformation (K : Type) where
  isIsotropic : Bool
  spacing : QPointF K
  rotation : K
  coordinateSystemFlipped : Bool
  isTimedSpacingEnabled : Bool
  timedSpacingInterval : K

/-- Modelled from the spec: the paint sample `KisPaintInformation` (declared
in `brushengine/kis_paint_information.h`, which is not among the sources),
as far as the tracker reads it: the 2D position `pos()` and the timestamp
`currentTime()`; `payload` stands for the rest of the record. -/
structure KisPaintInformation (K : Type) where
  pos : QPointF K
  currentTime : K
  payload : Nat

namespace KisDistanceInformation

/-- The record `KisDistanceInformation::Private`, member by member. -/
structure Private (K : Type) where
  accumDistance : QPointF K
  accumTime : K
  spacing : KisSpacingInformation K
  lastPosition : QPointF K
  lastTime : K
  lastDabInfoValid : Bool
  lastPaintInformation : KisPaintInformation K
  lastAngle : K
  lastPaintInfoValid : Bool
  lockedDrawingAngle : K
  hasLockedDrawingAngle : Bool
  totalDistance : K

variable {K : Type} [LinearOrderedField K]

/-- The constructor `Private::Private()`.  Its initialiser list sets the two
accumulators, the two validity flags, the locked angle with its flag and the
total distance; `lastPosition` is default-constructed to the origin.  The
members it does not mention (`lastTime` and `lastAngle`, left uninitialised,
and `spacing` and `lastPaintInformation`, default-constructed by classes that
are not among the sources) are taken from `u`. -/
def Private.init (u : Private K) : Private K :=
  { u with
    accumDistance := QPointF.null
    accumTime := 0
    lastPosition := QPointF.null
    lastDabInfoValid := false
    lastPaintInfoValid := false
    lockedDrawingAngle := 0
    hasLockedDrawingAngle := false
    totalDistance := 0 }

/-- The default constructor `KisDistanceInformation()`. -/
def create (u : Private K) : Private K := Private.init u

/-- The seeded constructor `KisDistanceInformation(lastPosition, lastTime)`. -/
def createSeeded (u : Private K) (lastPosition : QPointF K) (lastTime : K) : Private K :=
  { Private.init u with
    lastPosition := lastPosition
    lastTime := lastTime
    lastDabInfoValid := true }

/-- The member `overrideLastValues(lastPosition, lastTime)`. -/
def overrideLastValues (d : Private K) (lastPosition : QPointF K) (lastTime : K) : Private K :=
  { d with
    lastPosition := lastPosition
    lastTime := lastTime
    lastDabInfoValid := true }

/-- The member `registerPaintedDab(info, spacing)`.  The drawing angle comes
from `info.drawingAngleSafe(*this)`, a member of the paint sample that is not
among the sources: it is the parameter `drawingAngleSafe`, applied to the
tracker as it is at that point (the total distance already advanced). -/
def registerPaintedDab (m : QMath K)
    (drawingAngleSafe : KisPaintInformation K → Private K → K)
    (d : Private K) (info : KisPaintInformation K)
    (spacing : KisSpacingInformation K) : Private K :=
  let d1 : Private K :=
    { d with totalDistance := d.totalDistance + KisAlgebra2D.norm m (info.pos.sub d.lastPosition) }
  { d1 with
    lastAngle := drawingAngleSafe info d1
    lastPaintInformation := info
    lastPaintInfoValid := true
    lastPosition := info.pos
    lastTime := info.currentTime
    lastDabInfoValid := true
    spacing := spacing }

/-- The member `resetAccumulators()`. -/
def resetAccumulators (d : Private K) : Private K :=
  { d with accumDistance := QPointF.null, accumTime := 0 }

/-- The member `getNextPointPositionIsotropic(start, end)`: the returned
factor and the tracker afterwards. -/
def getNextPointPositionIsotropic (m : QMath K) (d : Private K)
    (start end_ : QPointF K) : K × Private K :=
  let distance := d.accumDistance.x
  let spacing := max (0.5 : K) d.spacing.spacing.x
  if start.x = end_.x ∧ start.y = end_.y then
    (-1, d)
  else
    let dragVecLength := QVector2D.length m (end_.sub start)
    let nextPointDistance := spacing - distance
    if nextPointDistance ≤ dragVecLength then
      (nextPointDistance / dragVecLength, resetAccumulators d)
    else
      (-1, { d with accumDistance := ⟨d.accumDistance.x + dragVecLength, d.accumDistance.y⟩ })

/-- The member `getNextPointPositionAnisotropic(start, end)`: the returned
factor and the tracker afterwards.  The warning printed on a negative
discriminant has no effect on the tracker. -/
def getNextPointPositionAnisotropic (m : QMath K) (d : Private K)
    (start end_ : QPointF K) : K × Private K :=
  if start.x = end_.x ∧ start.y = end_.y then
    (-1, d)
  else
    let a_rev := 1 / max (0.5 : K) d.spacing.spacing.x
    let b_rev := 1 / max (0.5 : K) d.spacing.spacing.y
    let x := d.accumDistance.x
    let y := d.accumDistance.y
    let eps : K := 2e-3
    let currentRotation :=
      if d.spacing.coordinateSystemFlipped then 2 * m.M_PI - d.spacing.rotation
      else d.spacing.rotation
    let diff :=
      if currentRotation > eps then QTransform.rotateRadiansMap m currentRotation (end_.sub start)
      else end_.sub start
    let dx := |diff.x|
    let dy := |diff.y|
    let alpha := pow2 (dx * a_rev) + pow2 (dy * b_rev)
    let beta := x * dx * a_rev * a_rev + y * dy * b_rev * b_rev
    let gamma := pow2 (x * a_rev) + pow2 (y * b_rev) - 1
    let D_4 := pow2 beta - alpha * gamma
    if D_4 ≥ 0 then
      let k := (-beta + m.qSqrt D_4) / alpha
      if k ≥ 0 ∧ k ≤ 1 then
        (k, resetAccumulators d)
      else
        (-1, { d with accumDistance := d.accumDistance.add (KisAlgebra2D.abs diff) })
    else
      (-1, d)

/-- The member `getNextPointPositionTimed(startTime, endTime)`: the returned
factor and the tracker afterwards. -/
def getNextPointPositionTimed (d : Private K) (startTime endTime : K) : K × Private K :=
  if ¬ (startTime < endTime) ∨ ¬ (d.spacing.isTimedSpacingEnabled = true) then
    (-1, d)
  else
    let newAccumTime := d.accumTime + endTime - startTime
    if newAccumTime ≥ d.spacing.timedSpacingInterval then
      (d.spacing.timedSpacingInterval / newAccumTime, resetAccumulators d)
    else
      (-1, { d with accumTime := newAccumTime })

/-- The distance-based factor of `getNextPointPosition`: the isotropic or the
anisotropic solver, as the current spacing says. -/
def spaceFactor (m : QMath K) (d : Private K) (start end_ : QPointF K) : K × Private K :=
  if d.spacing.isIsotropic then getNextPointPositionIsotropic m d start end_
  else getNextPointPositionAnisotropic m d start end_

/-- The member `getNextPointPosition(start, end, startTime, endTime)`: the
distance-based factor is computed first, the time-based factor second, on the
tracker the first computation left; `qMin(a, b)` is `min a b`. -/
def getNextPointPosition (m : QMath K) (d : Private K)
    (start end_ : QPointF K) (startTime endTime : K) : K × Private K :=
  let sf := spaceFactor m d start end_
  let tf := getNextPointPositionTimed sf.2 startTime endTime
  if sf.1 < 0 then
    (tf.1, tf.2)
  else if tf.1 < 0 then
    (sf.1, tf.2)
  else
    (min sf.1 tf.1, tf.2)

/-- The member `setLockedDrawingAngle(angle)`. -/
def setLockedDrawingAngle (d : Private K) (angle : K) : Private K :=
  { d with hasLockedDrawingAngle := true, lockedDrawingAngle := angle }

/-- The accessor `scalarDistanceApprox()`. -/
def scalarDistanceApprox (d : Private K) : K := d.totalDistance

/-- One query of the stroke driver: the four arguments of a call of
`getNextPointPosition`. -/
structure Segment (K : Type) where
  start : QPointF K
  end_ : QPointF K
  startTime : K
  endTime : K

/-- The Euclidean length of the segment of a query. -/
def Segment.length (m : QMath K) (q : Segment K) : K :=
  QVector2D.length m (q.end_.sub q.start)

/-- A sequence of calls of `getNextPointPosition` on one tracker, one call per
query, in order: the returned factors and the tracker after the last call. -/
def queryAll (m : QMath K) : Private K → List (Segment K) → List K × Private K
  | d, [] => ([], d)
  | d, q :: qs =>
    let r := getNextPointPosition m d q.start q.end_ q.startTime q.endTime
    let rest := queryAll m r.2 qs
    (r.1 :: rest.1, rest.2)

/-- A sequence of calls of `registerPaintedDab` on one tracker, one call per
pair of a paint sample and a spacing configuration, in order. -/
def registerAll (m : QMath K) (drawingAngleSafe : KisPaintInformation K → Private K → K) :
    Private K → List (KisPaintInformation K × KisSpacingInformation K) → Private K
  | d, [] => d
  | d, c :: cs => registerAll m drawingAngleSafe (registerPaintedDab m drawingAngleSafe d c.1 c.2) cs

/-- The Euclidean distance between two points. -/
def euclideanDistance (m : QMath K) (p q : QPointF K) : K :=
  m.qSqrt ((q.x - p.x) ^ 2 + (q.y - p.y) ^ 2)

/-- The sum of the Euclidean distances between consecutive points of a list
of positions. -/
def pathLength (m : QMath K) : List (QPointF K) → K
  | [] => 0
  | [_] => 0
  | p :: q :: rest => euclideanDistance m p q + pathLength m (q :: rest)

/-- One call of a mutating member of the tracker, with its arguments. -/
inductive Call (K : Type) where
  | registerPaintedDab (info : KisPaintInformation K) (spacing : KisSpacingInformation K)
  | getNextPointPosition (start end_ : QPointF K) (startTime endTime : K)
  | overrideLastValues (lastPosition : QPointF K) (lastTime : K)
  | setLockedDrawingAngle (angle : K)

/-- The tracker after one call. -/
def Call.run (m : QMath K) (drawingAngleSafe : KisPaintInformation K → Private K → K)
    (d : Private K) : Call K → Private K
  | .registerPaintedDab info spacing => KisDistanceInformation.registerPaintedDab m drawingAngleSafe d info spacing
  | .getNextPointPosition start end_ startTime endTime =>
    (KisDistanceInformation.getNextPointPosition m d start end_ startTime endTime).2
  | .overrideLastValues lastPosition lastTime =>
    KisDistanceInformation.overrideLastValues d lastPosition lastTime
  | .setLockedDrawingAngle angle => KisDistanceInformation.setLockedDrawingAngle d angle

/-- The tracker after a sequence of calls, in order. -/
def runAll (m : QMath K) (drawingAngleSafe : KisPaintInformation K → Private K → K) :
    Private K → List (Call K) → Private K
  | d, [] => d
  | d, c :: cs => runAll m drawingAngleSafe (Call.run m drawingAngleSafe d c) cs

/-- The same call of a solver made `n` times in a row on one tracker: the
returned factors and the tracker after the last call. -/
def repeatCall (f : Private K → K × Private K) : Nat → Private K → List K × Private K
  | 0, d => ([], d)
  | n + 1, d =>
    let rest := repeatCall f n (f d).2
    ((f d).1 :: rest.1, rest.2)

/-- Modelled from the spec: the macro `KIS_ASSERT_RECOVER_NOOP(cond)` of
`kis_assert.h`, a recoverable assertion: when `cond` fails a diagnostic is
logged and execution continues with the next statement.  The value tells
whether the diagnostic is raised. -/
def KIS_ASSERT_RECOVER_NOOP (cond : Bool) : Bool := !cond

/-- The level-of-detail constructor `KisDistanceInformation(rhs, levelOfDetail)`:
the copy, and whether the assertion raised its diagnostic.  The map of
`KisLodTransform(levelOfDetail)`, a class that is not among the sources, is the
parameter `lodMap`. -/
def createLod (lodMap : Int → QPointF K → QPointF K) (rhs : Private K)
    (levelOfDetail : Int) : Private K × Bool :=
  let d : Private K := rhs
  let raised := KIS_ASSERT_RECOVER_NOOP (!d.lastPaintInfoValid)
  ({ d with lastPosition := lodMap levelOfDetail d.lastPosition }, raised)

/-- The angle `currentRotation` of `getNextPointPositionAnisotropic`: the
rotation of the spacing, or `2 * M_PI` minus it in a flipped coordinate
system. -/
def currentRotation (m : QMath K) (d : Private K) : K :=
  if d.spacing.coordinateSystemFlipped then 2 * m.M_PI - d.spacing.rotation
  else d.spacing.rotation

/-- The segment delta `diff` of `getNextPointPositionAnisotropic` as the
solver uses it: `end - start`, rotated by `currentRotation` when that angle is
greater than `eps = 2e-3`. -/
def rotatedDiff (m : QMath K) (d : Private K) (start end_ : QPointF K) : QPointF K :=
  if currentRotation m d > (2e-3 : K) then
    QTransform.rotateRadiansMap m (currentRotation m d) (end_.sub start)
  else end_.sub start

/-- The accumulated offset of the tracker has non-negative components and
lies strictly inside the spacing ellipse with the radii `max(0.5, spacing.x)`
and `max(0.5, spacing.y)`. -/
def insideEllipse (d : Private K) : Prop :=
  0 ≤ d.accumDistance.x ∧ 0 ≤ d.accumDistance.y ∧
    (d.accumDistance.x / max (0.5 : K) d.spacing.spacing.x) ^ 2 +
      (d.accumDistance.y / max (0.5 : K) d.spacing.spacing.y) ^ 2 < 1

/-- The value `alpha` of `getNextPointPositionAnisotropic` (line 247) as the
program computes it, every arithmetic operation on `qreal` followed by the
rounding `fl` of its exact result; `diff` is the rotated segment delta. -/
def alphaRounded (fl : K → K) (d : Private K) (diff : QPointF K) : K :=
  let a_rev := fl (1 / max (0.5 : K) d.spacing.spacing.x)
  let b_rev := fl (1 / max (0.5 : K) d.spacing.spacing.y)
  let dx := |diff.x|
  let dy := |diff.y|
  fl (fl (pow2 (fl (dx * a_rev))) + fl (pow2 (fl (dy * b_rev))))

/-- The value `beta` of `getNextPointPositionAnisotropic` (line 248) as the
program computes it, with the rounding `fl` after every operation. -/
def betaRounded (fl : K → K) (d : Private K) (diff : QPointF K) : K :=
  let a_rev := fl (1 / max (0.5 : K) d.spacing.spacing.x)
  let b_rev := fl (1 / max (0.5 : K) d.spacing.spacing.y)
  let x := d.accumDistance.x
  let y := d.accumDistance.y
  let dx := |diff.x|
  let dy := |diff.y|
  fl (fl (fl (fl (x * dx) * a_rev) * a_rev) + fl (fl (fl (y * dy) * b_rev) * b_rev))

/-- The value `gamma` of `getNextPointPositionAnisotropic` (line 249) as the
program computes it, with the rounding `fl` after every operation. -/
def gammaRounded (fl : K → K) (d : Private K) : K :=
  let a_rev := fl (1 / max (0.5 : K) d.spacing.spacing.x)
  let b_rev := fl (1 / max (0.5 : K) d.spacing.spacing.y)
  let x := d.accumDistance.x
  let y := d.accumDistance.y
  fl (fl (fl (pow2 (fl (x * a_rev))) + fl (pow2 (fl (y * b_rev)))) - 1)

/-- The discriminant `D_4` of `getNextPointPositionAnisotropic` (line 251) as
the program computes it, with the rounding `fl` after every operation. -/
def D_4Rounded (fl : K → K) (d : Private K) (diff : QPointF K) : K :=
  fl (fl (pow2 (betaRounded fl d diff)) - fl (alphaRounded fl d diff * gammaRounded fl d))

/-- The part of `getNextPointPositionAnisotropic` that follows the computation
of the segment delta `diff` (lines 221-225 and 244-268 of the source), with the
rounding of every arithmetic operation on `qreal` written out: `fl` rounds the
exact result of one operation to a value of the type, and `sqrt` is `qSqrt`.
The result is the returned factor, the tracker afterwards, and whether the
warning of the `BUG` branch was printed. -/
def anisotropicStepRounded (fl : K → K) (sqrt : K → K) (d : Private K)
    (diff : QPointF K) : K × Private K × Bool :=
  let dx := |diff.x|
  let dy := |diff.y|
  let alpha := alphaRounded fl d diff
  let beta := betaRounded fl d diff
  let D_4 := D_4Rounded fl d diff
  if D_4 ≥ 0 then
    let k := fl (fl (-beta + sqrt D_4) / alpha)
    if k ≥ 0 ∧ k ≤ 1 then
      (k, resetAccumulators d, false)
    else
      (-1, { d with accumDistance := ⟨fl (d.accumDistance.x + dx), fl (d.accumDistance.y + dy)⟩ },
        false)
  else
    (-1, d, true)

/-- The steps of `anisotropicStepRounded` for a sequence of segment deltas on
one tracker, in order: the returned factors, each with the flag of the `BUG`
warning, and the tracker after the last step. -/
def anisotropicStepsRounded (fl : K → K) (sqrt : K → K) :
    Private K → List (QPointF K) → List (K × Bool) × Private K
  | d, [] => ([], d)
  | d, diff :: rest =>
    let r := anisotropicStepRounded fl sqrt d diff
    let t := anisotropicStepsRounded fl sqrt r.2.1 rest
    ((r.1, r.2.2) :: t.1, t.2)

end KisDistanceInformation

/-- The numeric library on the real numbers: the real square root, sine,
cosine and the number pi.  This is the one definition that does not run: the
members of the tracker above are computable and take the library as an
argument. -/
noncomputable def realMath : QMath ℝ := ⟨Real.sqrt, Real.sin, Real.cos, Real.pi⟩

/-! ## Double precision

The members above read `qreal` as an exact number.  The definitions here give
the arithmetic of IEEE 754 binary64 on rational numbers, so that the solver can
also be run with the rounding the program performs
(`KisDistanceInformation.anisotropicStepRounded` with `roundDouble` and
`sqrtDouble`). -/

/-- The floor of the binary logarithm of a natural number (0 for 0 and 1),
counted by halving; `fuel` bounds the number of halvings. -/
def log2Aux : Nat → Nat → Nat
  | 0, _ => 0
  | fuel + 1, n => if n < 2 then 0 else log2Aux fuel (n / 2) + 1

/-- The integer square root by Newton's iteration from above; `fuel` bounds
the number of steps. -/
def isqrtAux : Nat → Nat → Nat → Nat
  | 0, _, x => x
  | fuel + 1, n, x =>
    let y := (x + n / x) / 2
    if y < x then isqrtAux fuel n y else x

/-- The integer square root: the largest `r` with `r * r ≤ n`. -/
def isqrt (n : Nat) : Nat :=
  if n = 0 then 0 else isqrtAux 4096 n (2 ^ (log2Aux 4096 n / 2 + 1))

/-- The power `2 ^ e` for an integer exponent, as a rational number. -/
def twoPow (e : Int) : ℚ :=
  if 0 ≤ e then ((2 ^ e.toNat : Nat) : ℚ) else 1 / ((2 ^ (-e).toNat : Nat) : ℚ)

/-- The binary exponent of a rational number other than 0: the integer `e`
with `2 ^ e ≤ |q| < 2 ^ (e + 1)`. -/
def binaryExponent (q : ℚ) : Int :=
  let e0 : Int := (log2Aux 4096 q.num.natAbs : Int) - (log2Aux 4096 q.den : Int)
  if |q| < twoPow e0 then e0 - 1 else e0

/-- The integer nearest to a non-negative rational number, the even one of
the two when it lies half way between them. -/
def roundHalfEven (v : ℚ) : Nat :=
  let m0 : Nat := v.num.natAbs / v.den
  let twice : ℚ := 2 * (v - m0)
  if twice > 1 then m0 + 1 else if twice = 1 then m0 + m0 % 2 else m0

/-- The IEEE 754 binary64 value nearest to a rational number: 53 significant
bits, round to nearest, ties to even.  The exponent range (overflow and
subnormal numbers) is not modelled. -/
def roundDouble (q : ℚ) : ℚ :=
  if q = 0 then 0
  else
    let s : Int := 52 - binaryExponent q
    (if q < 0 then -1 else 1) * (roundHalfEven (|q| * twoPow s) : ℚ) / twoPow s

/-- The IEEE 754 binary64 square root: the binary64 value nearest to the
exact square root of a binary64 value (0 for a negative argument, where the
hardware gives a NaN). -/
def sqrtDouble (q : ℚ) : ℚ :=
  if q ≤ 0 then 0
  else
    let s : Int := 52 - Int.fdiv (binaryExponent q) 2
    let v : ℚ := q * twoPow (2 * s)
    let m0 : Nat := isqrt (v.num.natAbs / v.den)
    let m : Nat := if v > (m0 : ℚ) * m0 + m0 + 1 / 4 then m0 + 1 else m0
    (m : ℚ) / twoPow s

/-! ## Concrete configurations used by the examples -/

section Examples

variable {K : Type} [LinearOrderedField K]

/-- A spacing configuration given by its isotropic flag, its two radii and its
timed-spacing flag and interval, with no rotation and no flip. -/
def exampleSpacing (iso : Bool) (a b : K) (timed : Bool) (interval : K) :
    KisSpacingInformation K :=
  ⟨iso, ⟨a, b⟩, 0, false, timed, interval⟩

/-- A tracker with the given spacing configuration, accumulated distance and
accumulated time, and nothing painted so far. -/
def exampleTracker (sp : KisSpacingInformation K) (ax ay t : K) :
    KisDistanceInformation.Private K :=
  { accumDistance := ⟨ax, ay⟩
    accumTime := t
    spacing := sp
    lastPosition := ⟨0, 0⟩
    lastTime := 0
    lastDabInfoValid := false
    lastPaintInformation := ⟨⟨0, 0⟩, 0, 0⟩
    lastAngle := 0
    lastPaintInfoValid := false
    lockedDrawingAngle := 0
    hasLockedDrawingAngle := false
    totalDistance := 0 }

/-- An anisotropic spacing configuration given by its two radii, its rotation
angle and its coordinate-flip flag, without timed spacing. -/
def exampleEllipse (a b rotation : K) (flipped : Bool) : KisSpacingInformation K :=
  ⟨false, ⟨a, b⟩, rotation, flipped, false, 0⟩

/-- Modelled from the spec: a level-of-detail transform that halves the
coordinates once per level (half-resolution halves coordinates). -/
def exampleLodMap (levelOfDetail : Int) (p : QPointF K) : QPointF K :=
  ⟨p.x / 2 ^ levelOfDetail.toNat, p.y / 2 ^ levelOfDetail.toNat⟩

end Examples

/-! ## Auxiliary facts -/

namespace KisDistanceInformation

theorem length_real (v : QPointF ℝ) :
    QVector2D.length realMath v = Real.sqrt (v.x * v.x + v.y * v.y) := rfl

theorem length_eq_of_sq (v : QPointF ℝ) (L : ℝ) (hL : 0 ≤ L)
    (h : v.x * v.x + v.y * v.y = L * L) : QVector2D.length realMath v = L := by
  rw [length_real, h]
  exact Real.sqrt_mul_self hL

theorem length_nonneg (v : QPointF ℝ) : 0 ≤ QVector2D.length realMath v := by
  rw [length_real]
  exact Real.sqrt_nonneg _

theorem length_pos (start end_ : QPointF ℝ)
    (hne : ¬ (start.x = end_.x ∧ start.y = end_.y)) :
    0 < QVector2D.length realMath (end_.sub start) := by
  rw [length_real]
  apply Real.sqrt_pos.mpr
  simp only [QPointF.sub]
  by_cases hx : start.x = end_.x
  · have hy : end_.y - start.y ≠ 0 := fun h => hne ⟨hx, by linarith⟩
    have := mul_self_pos.mpr hy
    nlinarith [mul_self_nonneg (end_.x - start.x)]
  · have hx2 : end_.x - start.x ≠ 0 := fun h => hx (by linarith)
    have := mul_self_pos.mpr hx2
    nlinarith [mul_self_nonneg (end_.y - start.y)]

theorem isotropic_spacing (m : QMath ℝ) (d : Private ℝ) (start end_ : QPointF ℝ) :
    (getNextPointPositionIsotropic m d start end_).2.spacing = d.spacing := by
  simp only [getNextPointPositionIsotropic, resetAccumulators]
  split_ifs <;> rfl

theorem anisotropic_spacing (m : QMath ℝ) (d : Private ℝ) (start end_ : QPointF ℝ) :
    (getNextPointPositionAnisotropic m d start end_).2.spacing = d.spacing := by
  simp only [getNextPointPositionAnisotropic, resetAccumulators]
  split_ifs <;> rfl

theorem spaceFactor_spacing (m : QMath ℝ) (d : Private ℝ) (start end_ : QPointF ℝ) :
    (spaceFactor m d start end_).2.spacing = d.spacing := by
  unfold spaceFactor
  split_ifs
  · exact isotropic_spacing m d start end_
  · exact anisotropic_spacing m d start end_

theorem isotropic_le_one (d : Private ℝ) (start end_ : QPointF ℝ) :
    (getNextPointPositionIsotropic realMath d start end_).1 ≤ 1 := by
  simp only [getNextPointPositionIsotropic]
  split_ifs with h1 h2
  · norm_num
  · exact (div_le_one (length_pos start end_ h1)).mpr h2
  · norm_num

theorem anisotropic_le_one (m : QMath ℝ) (d : Private ℝ) (start end_ : QPointF ℝ) :
    (getNextPointPositionAnisotropic m d start end_).1 ≤ 1 := by
  simp only [getNextPointPositionAnisotropic]
  split_ifs <;> first | exact (‹_ ∧ _›).2 | norm_num

theorem spaceFactor_le_one (d : Private ℝ) (start end_ : QPointF ℝ) :
    (spaceFactor realMath d start end_).1 ≤ 1 := by
  unfold spaceFactor
  split_ifs
  · exact isotropic_le_one d start end_
  · exact anisotropic_le_one realMath d start end_

theorem timed_range (d : Private ℝ) (startTime endTime : ℝ)
    (h : d.spacing.isTimedSpacingEnabled = false ∨ 0 < d.spacing.timedSpacingInterval) :
    (getNextPointPositionTimed d startTime endTime).1 = -1 ∨
      (0 < (getNextPointPositionTimed d startTime endTime).1 ∧
        (getNextPointPositionTimed d startTime endTime).1 ≤ 1) := by
  simp only [getNextPointPositionTimed]
  split_ifs with h1 h2
  · exact Or.inl rfl
  · right
    rcases h with h | h
    · exact absurd h (by
        intro hf
        exact h1 (Or.inr (by simp [hf])))
    · have hpos : 0 < d.accumTime + endTime - startTime := lt_of_lt_of_le h h2
      exact ⟨div_pos h hpos, (div_le_one hpos).mpr h2⟩
  · exact Or.inl rfl

theorem timed_disabled (d : Private ℝ) (startTime endTime : ℝ)
    (h : d.spacing.isTimedSpacingEnabled = false) :
    getNextPointPositionTimed d startTime endTime = (-1, d) := by
  simp [getNextPointPositionTimed, h]

theorem getNextPointPosition_eq (m : QMath ℝ) (s : Private ℝ) (start end_ : QPointF ℝ)
    (startTime endTime : ℝ) :
    getNextPointPosition m s start end_ startTime endTime =
      (if (spaceFactor m s start end_).1 < 0 then
          (getNextPointPositionTimed (spaceFactor m s start end_).2 startTime endTime).1
        else if (getNextPointPositionTimed (spaceFactor m s start end_).2 startTime endTime).1 < 0
          then (spaceFactor m s start end_).1
        else min (spaceFactor m s start end_).1
          (getNextPointPositionTimed (spaceFactor m s start end_).2 startTime endTime).1,
       (getNextPointPositionTimed (spaceFactor m s start end_).2 startTime endTime).2) := by
  simp only [getNextPointPosition]
  split_ifs <;> rfl

theorem timed_inactive (d : Private ℝ) (startTime endTime : ℝ)
    (h : ¬ (startTime < endTime) ∨ d.spacing.isTimedSpacingEnabled = false) :
    getNextPointPositionTimed d startTime endTime = (-1, d) := by
  have h' : ¬ (startTime < endTime) ∨ ¬ (d.spacing.isTimedSpacingEnabled = true) := by
    rcases h with h | h
    · exact Or.inl h
    · exact Or.inr (by simp [h])
  simp only [getNextPointPositionTimed]
  rw [if_pos h']

theorem timed_miss (d : Private ℝ) (startTime endTime : ℝ)
    (hlt : startTime < endTime) (hen : d.spacing.isTimedSpacingEnabled = true)
    (h : d.accumTime + endTime - startTime < d.spacing.timedSpacingInterval) :
    getNextPointPositionTimed d startTime endTime =
      (-1, { d with accumTime := d.accumTime + endTime - startTime }) := by
  have h' : ¬ (¬ (startTime < endTime) ∨ ¬ (d.spacing.isTimedSpacingEnabled = true)) := by
    simp [hlt, hen]
  simp only [getNextPointPositionTimed]
  rw [if_neg h', if_neg (not_le.mpr h)]

theorem timed_hit (d : Private ℝ) (startTime endTime : ℝ)
    (hlt : startTime < endTime) (hen : d.spacing.isTimedSpacingEnabled = true)
    (h : d.spacing.timedSpacingInterval ≤ d.accumTime + endTime - startTime) :
    getNextPointPositionTimed d startTime endTime =
      (d.spacing.timedSpacingInterval / (d.accumTime + endTime - startTime),
        resetAccumulators d) := by
  have h' : ¬ (¬ (startTime < endTime) ∨ ¬ (d.spacing.isTimedSpacingEnabled = true)) := by
    simp [hlt, hen]
  simp only [getNextPointPositionTimed]
  rw [if_neg h', if_pos h]

theorem getNextPointPosition_untimed (s : Private ℝ) (start end_ : QPointF ℝ)
    (startTime endTime : ℝ) (htimed : s.spacing.isTimedSpacingEnabled = false) :
    getNextPointPosition realMath s start end_ startTime endTime =
      (if (spaceFactor realMath s start end_).1 < 0 then -1
        else (spaceFactor realMath s start end_).1,
       (spaceFactor realMath s start end_).2) := by
  have ht : (spaceFactor realMath s start end_).2.spacing.isTimedSpacingEnabled = false := by
    rw [spaceFactor_spacing]
    exact htimed
  simp only [getNextPointPosition, timed_disabled _ startTime endTime ht]
  split_ifs with h1 h2
  · rfl
  · rfl
  · exact absurd (by norm_num : (-1 : ℝ) < 0) h2

theorem query_miss (s : Private ℝ) (q : Segment ℝ)
    (hiso : s.spacing.isIsotropic = true) (htimed : s.spacing.isTimedSpacingEnabled = false)
    (hne : ¬ (q.start.x = q.end_.x ∧ q.start.y = q.end_.y))
    (h : ¬ (max 0.5 s.spacing.spacing.x - s.accumDistance.x ≤ q.length realMath)) :
    getNextPointPosition realMath s q.start q.end_ q.startTime q.endTime =
      (-1, { s with accumDistance := ⟨s.accumDistance.x + q.length realMath, s.accumDistance.y⟩ }) := by
  have hsf : spaceFactor realMath s q.start q.end_ =
      (-1, { s with accumDistance := ⟨s.accumDistance.x + q.length realMath, s.accumDistance.y⟩ }) := by
    simp only [Segment.length] at h ⊢
    simp only [spaceFactor, hiso, if_true, getNextPointPositionIsotropic]
    rw [if_neg hne, if_neg h]
  rw [getNextPointPosition_untimed s _ _ _ _ htimed, hsf]
  norm_num

theorem query_hit (s : Private ℝ) (q : Segment ℝ)
    (hiso : s.spacing.isIsotropic = true) (htimed : s.spacing.isTimedSpacingEnabled = false)
    (hne : ¬ (q.start.x = q.end_.x ∧ q.start.y = q.end_.y))
    (h : max 0.5 s.spacing.spacing.x - s.accumDistance.x ≤ q.length realMath)
    (h0 : 0 ≤ max 0.5 s.spacing.spacing.x - s.accumDistance.x) :
    getNextPointPosition realMath s q.start q.end_ q.startTime q.endTime =
      ((max 0.5 s.spacing.spacing.x - s.accumDistance.x) / q.length realMath,
        resetAccumulators s) := by
  have hq : 0 ≤ (max 0.5 s.spacing.spacing.x - s.accumDistance.x) / q.length realMath :=
    div_nonneg h0 (length_nonneg _)
  have hsf : spaceFactor realMath s q.start q.end_ =
      ((max 0.5 s.spacing.spacing.x - s.accumDistance.x) / q.length realMath,
        resetAccumulators s) := by
    simp only [Segment.length] at h ⊢
    simp only [spaceFactor, hiso, if_true, getNextPointPositionIsotropic]
    rw [if_neg hne, if_pos h]
  rw [getNextPointPosition_untimed s _ _ _ _ htimed, hsf]
  simp only []
  rw [if_neg (not_lt.mpr hq)]

theorem queryAll_cons (m : QMath ℝ) (d : Private ℝ) (q : Segment ℝ) (qs : List (Segment ℝ)) :
    queryAll m d (q :: qs) =
      ((getNextPointPosition m d q.start q.end_ q.startTime q.endTime).1 ::
          (queryAll m (getNextPointPosition m d q.start q.end_ q.startTime q.endTime).2 qs).1,
        (queryAll m (getNextPointPosition m d q.start q.end_ q.startTime q.endTime).2 qs).2) :=
  rfl

theorem queryAll_threshold (pre : List (Segment ℝ)) :
    ∀ (s : Private ℝ) (last : Segment ℝ),
      s.spacing.isIsotropic = true → s.spacing.isTimedSpacingEnabled = false →
      (∀ q ∈ pre ++ [last], ¬ (q.start.x = q.end_.x ∧ q.start.y = q.end_.y)) →
      s.accumDistance.x + (pre.map (Segment.length realMath)).sum < max 0.5 s.spacing.spacing.x →
      max 0.5 s.spacing.spacing.x ≤
        s.accumDistance.x + (pre.map (Segment.length realMath)).sum + last.length realMath →
      ∃ t : ℝ,
        (queryAll realMath s (pre ++ [last])).1 = List.replicate pre.length (-1) ++ [t] ∧
        s.accumDistance.x + (pre.map (Segment.length realMath)).sum + t * last.length realMath =
          max 0.5 s.spacing.spacing.x ∧
        (queryAll realMath s (pre ++ [last])).2.accumDistance = ⟨0, 0⟩ := by
  induction pre with
  | nil =>
    intro s last hiso htimed hnd hlt hle
    simp only [List.map_nil, List.sum_nil, add_zero] at hlt hle
    have hne := hnd last (by simp)
    have hpos := length_pos last.start last.end_ hne
    have hstep := query_hit s last hiso htimed hne (by linarith) (by linarith)
    refine ⟨(max 0.5 s.spacing.spacing.x - s.accumDistance.x) / last.length realMath, ?_, ?_, ?_⟩
    · simp [queryAll, hstep]
    · simp only [List.map_nil, List.sum_nil, add_zero]
      have hL : last.length realMath ≠ 0 := ne_of_gt hpos
      field_simp
    · simp [queryAll, hstep, resetAccumulators, QPointF.null]
  | cons q qs ih =>
    intro s last hiso htimed hnd hlt hle
    simp only [List.map_cons, List.sum_cons] at hlt hle
    have hne := hnd q (by simp)
    have hnn : 0 ≤ (qs.map (Segment.length realMath)).sum :=
      List.sum_nonneg (by
        intro x hx
        obtain ⟨q', _, rfl⟩ := List.mem_map.mp hx
        exact length_nonneg _)
    have hstep := query_miss s q hiso htimed hne (by
      intro hcon
      linarith)
    obtain ⟨t, h1, h2, h3⟩ := ih
      { s with accumDistance := ⟨s.accumDistance.x + q.length realMath, s.accumDistance.y⟩ }
      last hiso htimed
      (by
        intro q' hq'
        exact hnd q' (by simp only [List.cons_append, List.mem_cons]; exact Or.inr hq'))
      (by simpa [add_assoc] using hlt)
      (by simpa [add_assoc] using hle)
    refine ⟨t, ?_, ?_, ?_⟩
    · rw [List.cons_append, queryAll_cons, hstep]
      simp only [List.length_cons, List.replicate_succ, List.cons_append]
      rw [h1]
    · simpa [add_assoc] using h2
    · rw [List.cons_append, queryAll_cons, hstep]
      exact h3

theorem isotropic_state_of_nonneg (m : QMath ℝ) (d : Private ℝ) (start end_ : QPointF ℝ)
    (h : 0 ≤ (getNextPointPositionIsotropic m d start end_).1) :
    (getNextPointPositionIsotropic m d start end_).2 = resetAccumulators d := by
  simp only [getNextPointPositionIsotropic] at h ⊢
  split_ifs at h ⊢ <;> first | rfl | (exfalso; norm_num at h)

theorem anisotropic_state_of_nonneg (m : QMath ℝ) (d : Private ℝ) (start end_ : QPointF ℝ)
    (h : 0 ≤ (getNextPointPositionAnisotropic m d start end_).1) :
    (getNextPointPositionAnisotropic m d start end_).2 = resetAccumulators d := by
  simp only [getNextPointPositionAnisotropic] at h ⊢
  split_ifs at h ⊢ <;> first | rfl | (exfalso; norm_num at h)

theorem spaceFactor_state_of_nonneg (m : QMath ℝ) (d : Private ℝ) (start end_ : QPointF ℝ)
    (h : 0 ≤ (spaceFactor m d start end_).1) :
    (spaceFactor m d start end_).2 = resetAccumulators d := by
  unfold spaceFactor at h ⊢
  split_ifs at h ⊢
  · exact isotropic_state_of_nonneg m d start end_ h
  · exact anisotropic_state_of_nonneg m d start end_ h

theorem timed_state_of_nonneg (d : Private ℝ) (startTime endTime : ℝ)
    (h : 0 ≤ (getNextPointPositionTimed d startTime endTime).1) :
    (getNextPointPositionTimed d startTime endTime).2 = resetAccumulators d := by
  simp only [getNextPointPositionTimed] at h ⊢
  split_ifs at h ⊢ <;> first | rfl | (exfalso; norm_num at h)

theorem timed_fst_congr (d e : Private ℝ) (startTime endTime : ℝ)
    (hs : d.spacing = e.spacing) (ht : d.accumTime = e.accumTime) :
    (getNextPointPositionTimed d startTime endTime).1 =
      (getNextPointPositionTimed e startTime endTime).1 := by
  simp only [getNextPointPositionTimed, hs, ht]
  split_ifs <;> rfl

theorem norm_sub_eq (p q : QPointF ℝ) :
    KisAlgebra2D.norm realMath (q.sub p) = euclideanDistance realMath p q := by
  simp only [KisAlgebra2D.norm, euclideanDistance, pow2, QPointF.sub, sq]

theorem euclideanDistance_nonneg (p q : QPointF ℝ) : 0 ≤ euclideanDistance realMath p q :=
  Real.sqrt_nonneg _

theorem registerPaintedDab_totalDistance (angle : KisPaintInformation ℝ → Private ℝ → ℝ)
    (d : Private ℝ) (info : KisPaintInformation ℝ) (spacing : KisSpacingInformation ℝ) :
    (registerPaintedDab realMath angle d info spacing).totalDistance =
      d.totalDistance + euclideanDistance realMath d.lastPosition info.pos := by
  simp only [registerPaintedDab, norm_sub_eq]

theorem registerPaintedDab_lastPosition (angle : KisPaintInformation ℝ → Private ℝ → ℝ)
    (d : Private ℝ) (info : KisPaintInformation ℝ) (spacing : KisSpacingInformation ℝ) :
    (registerPaintedDab realMath angle d info spacing).lastPosition = info.pos := rfl

theorem registerAll_totalDistance (angle : KisPaintInformation ℝ → Private ℝ → ℝ)
    (dabs : List (KisPaintInformation ℝ × KisSpacingInformation ℝ)) :
    ∀ d : Private ℝ,
      (registerAll realMath angle d dabs).totalDistance =
        d.totalDistance + pathLength realMath (d.lastPosition :: dabs.map (fun c => c.1.pos)) := by
  induction dabs with
  | nil =>
    intro d
    simp [registerAll, pathLength]
  | cons c cs ih =>
    intro d
    simp only [registerAll, List.map_cons, pathLength]
    rw [ih, registerPaintedDab_totalDistance, registerPaintedDab_lastPosition]
    ring

theorem timed_totalDistance (d : Private ℝ) (startTime endTime : ℝ) :
    (getNextPointPositionTimed d startTime endTime).2.totalDistance = d.totalDistance := by
  simp only [getNextPointPositionTimed, resetAccumulators]
  split_ifs <;> rfl

theorem spaceFactor_totalDistance (m : QMath ℝ) (d : Private ℝ) (start end_ : QPointF ℝ) :
    (spaceFactor m d start end_).2.totalDistance = d.totalDistance := by
  simp only [spaceFactor, getNextPointPositionIsotropic, getNextPointPositionAnisotropic,
    resetAccumulators]
  split_ifs <;> rfl

theorem getNextPointPosition_totalDistance (m : QMath ℝ) (d : Private ℝ)
    (start end_ : QPointF ℝ) (startTime endTime : ℝ) :
    (getNextPointPosition m d start end_ startTime endTime).2.totalDistance =
      d.totalDistance := by
  rw [getNextPointPosition_eq]
  simp only []
  rw [timed_totalDistance, spaceFactor_totalDistance]

theorem run_totalDistance_le (angle : KisPaintInformation ℝ → Private ℝ → ℝ)
    (d : Private ℝ) (c : Call ℝ) :
    d.totalDistance ≤ (Call.run realMath angle d c).totalDistance := by
  cases c with
  | registerPaintedDab info spacing =>
    simp only [Call.run]
    rw [registerPaintedDab_totalDistance]
    linarith [euclideanDistance_nonneg d.lastPosition info.pos]
  | getNextPointPosition start end_ startTime endTime =>
    simp only [Call.run]
    rw [getNextPointPosition_totalDistance]
  | overrideLastValues lastPosition lastTime => exact le_refl _
  | setLockedDrawingAngle angle => exact le_refl _

theorem runAll_append (angle : KisPaintInformation ℝ → Private ℝ → ℝ)
    (cs1 cs2 : List (Call ℝ)) :
    ∀ d : Private ℝ, runAll realMath angle d (cs1 ++ cs2) =
      runAll realMath angle (runAll realMath angle d cs1) cs2 := by
  induction cs1 with
  | nil => intro d; rfl
  | cons c cs ih => intro d; exact ih _

theorem runAll_totalDistance_le (angle : KisPaintInformation ℝ → Private ℝ → ℝ)
    (cs : List (Call ℝ)) :
    ∀ d : Private ℝ, d.totalDistance ≤ (runAll realMath angle d cs).totalDistance := by
  induction cs with
  | nil => intro d; exact le_refl _
  | cons c cs ih => intro d; exact le_trans (run_totalDistance_le angle d c) (ih _)

theorem anisotropic_circle_zero (s : Private ℝ) (start end_ : QPointF ℝ) (a L : ℝ)
    (ha : a = max 0.5 s.spacing.spacing.x)
    (hab : s.spacing.spacing.x = s.spacing.spacing.y)
    (hrot : s.spacing.rotation = 0) (hflip : s.spacing.coordinateSystemFlipped = false)
    (hzero : s.accumDistance = ⟨0, 0⟩)
    (hL : L = Real.sqrt ((end_.x - start.x) ^ 2 + (end_.y - start.y) ^ 2))
    (hne : ¬ (start.x = end_.x ∧ start.y = end_.y)) :
    getNextPointPositionAnisotropic realMath s start end_ =
      if a ≤ L then (a / L, resetAccumulators s)
      else (-1, { s with accumDistance := ⟨|end_.x - start.x|, |end_.y - start.y|⟩ }) := by
  have hx : s.accumDistance.x = 0 := by rw [hzero]
  have hy : s.accumDistance.y = 0 := by rw [hzero]
  have hapos : 0 < a := by
    rw [ha]
    exact lt_of_lt_of_le (by norm_num) (le_max_left _ _)
  have hlen : QVector2D.length realMath (end_.sub start) = L := by
    rw [length_real, hL]
    simp only [QPointF.sub, sq]
  have hLpos : 0 < L := by
    rw [← hlen]
    exact length_pos start end_ hne
  have hLL : L * L = (end_.x - start.x) ^ 2 + (end_.y - start.y) ^ 2 := by
    rw [hL]
    exact Real.mul_self_sqrt (by positivity)
  have heps : ¬ ((0 : ℝ) > 2e-3) := by norm_num
  simp only [getNextPointPositionAnisotropic, hx, hy, hrot, hflip, ← hab, ← ha, if_neg hne]
  simp only [Bool.false_eq_true, if_false, if_neg heps]
  have hnn : 0 ≤ L / a := div_nonneg hLpos.le hapos.le
  have halpha : pow2 (|(end_.sub start).x| * (1 / a)) + pow2 (|(end_.sub start).y| * (1 / a)) =
      (L / a) * (L / a) := by
    simp only [pow2, QPointF.sub]
    have e1 := abs_mul_abs_self (end_.x - start.x)
    have e2 := abs_mul_abs_self (end_.y - start.y)
    have e3 : |end_.x - start.x| * (1 / a) * (|end_.x - start.x| * (1 / a)) +
        |end_.y - start.y| * (1 / a) * (|end_.y - start.y| * (1 / a)) =
        (|end_.x - start.x| * |end_.x - start.x| + |end_.y - start.y| * |end_.y - start.y|) *
          ((1 / a) * (1 / a)) := by ring
    rw [e3, e1, e2, ← sq, ← sq, ← hLL]
    field_simp
  have hk : (L / a) / ((L / a) * (L / a)) = a / L := by
    field_simp
    ring
  rw [halpha]
  simp only [pow2, zero_mul, add_zero, mul_zero, zero_add, zero_sub, neg_zero, mul_neg, mul_one,
    neg_neg, sub_neg_eq_add, show realMath.qSqrt = Real.sqrt from rfl, Real.sqrt_mul_self hnn, hk]
  rw [if_pos (mul_self_nonneg _)]
  have hiff : (a / L ≥ 0 ∧ a / L ≤ 1) ↔ a ≤ L :=
    ⟨fun h => (div_le_one hLpos).mp h.2,
      fun h => ⟨div_nonneg hapos.le hLpos.le, (div_le_one hLpos).mpr h⟩⟩
  by_cases h : a ≤ L
  · rw [if_pos (hiff.mpr h), if_pos h]
  · rw [if_neg (fun hc => h (hiff.mp hc)), if_neg h]
    simp [QPointF.add, KisAlgebra2D.abs, QPointF.sub, hx, hy]

theorem repeatCall_fixed (f : Private ℝ → ℝ × Private ℝ) (c : ℝ) (s : Private ℝ)
    (h : f s = (c, s)) (n : Nat) : repeatCall f n s = (List.replicate n c, s) := by
  induction n with
  | zero => rfl
  | succ k ih =>
    have hstep : repeatCall f (k + 1) s =
        ((f s).1 :: (repeatCall f k (f s).2).1, (repeatCall f k (f s).2).2) := rfl
    rw [hstep, h]
    simp only []
    rw [ih]
    rfl

theorem pow2_eq_sq (v : ℝ) : pow2 v = v ^ 2 := by
  simp only [pow2]
  ring

theorem anisotropic_cases (s : Private ℝ) (start end_ : QPointF ℝ)
    (a b x y dx dy alpha beta gamma D : ℝ)
    (ha : a = max 0.5 s.spacing.spacing.x) (hb : b = max 0.5 s.spacing.spacing.y)
    (hx : x = s.accumDistance.x) (hy : y = s.accumDistance.y)
    (hdx : dx = |(rotatedDiff realMath s start end_).x|)
    (hdy : dy = |(rotatedDiff realMath s start end_).y|)
    (halpha : alpha = (dx / a) ^ 2 + (dy / b) ^ 2)
    (hbeta : beta = x * dx / a ^ 2 + y * dy / b ^ 2)
    (hgamma : gamma = (x / a) ^ 2 + (y / b) ^ 2 - 1)
    (hD : D = beta ^ 2 - alpha * gamma)
    (hne : ¬ (start.x = end_.x ∧ start.y = end_.y)) :
    getNextPointPositionAnisotropic realMath s start end_ =
      if 0 ≤ D then
        if 0 ≤ (-beta + Real.sqrt D) / alpha ∧ (-beta + Real.sqrt D) / alpha ≤ 1 then
          ((-beta + Real.sqrt D) / alpha, resetAccumulators s)
        else (-1, { s with accumDistance := ⟨x + dx, y + dy⟩ })
      else (-1, s) := by
  have e_alpha : pow2 (|(rotatedDiff realMath s start end_).x| * (1 / max 0.5 s.spacing.spacing.x)) +
      pow2 (|(rotatedDiff realMath s start end_).y| * (1 / max 0.5 s.spacing.spacing.y)) =
      alpha := by
    rw [halpha, hdx, hdy, ha, hb, pow2_eq_sq, pow2_eq_sq]
    ring
  have e_beta : s.accumDistance.x * |(rotatedDiff realMath s start end_).x| *
        (1 / max 0.5 s.spacing.spacing.x) * (1 / max 0.5 s.spacing.spacing.x) +
      s.accumDistance.y * |(rotatedDiff realMath s start end_).y| *
        (1 / max 0.5 s.spacing.spacing.y) * (1 / max 0.5 s.spacing.spacing.y) = beta := by
    rw [hbeta, hdx, hdy, ha, hb, hx, hy]
    ring
  have e_gamma : pow2 (s.accumDistance.x * (1 / max 0.5 s.spacing.spacing.x)) +
      pow2 (s.accumDistance.y * (1 / max 0.5 s.spacing.spacing.y)) - 1 = gamma := by
    rw [hgamma, ha, hb, hx, hy, pow2_eq_sq, pow2_eq_sq]
    ring
  have e_abs : s.accumDistance.add (KisAlgebra2D.abs (rotatedDiff realMath s start end_)) =
      ⟨x + dx, y + dy⟩ := by
    rw [hx, hy, hdx, hdy]
    rfl
  simp only [rotatedDiff, currentRotation] at e_alpha e_beta e_abs
  simp only [getNextPointPositionAnisotropic, if_neg hne]
  rw [e_beta, e_alpha, e_gamma, e_abs, pow2_eq_sq, ← hD]
  rfl

theorem isotropic_of_neg (s : Private ℝ) (start end_ : QPointF ℝ)
    (hd : s.accumDistance.x ≤ max 0.5 s.spacing.spacing.x)
    (h : (getNextPointPositionIsotropic realMath s start end_).1 < 0) :
    (getNextPointPositionIsotropic realMath s start end_).1 = -1 ∧
      (getNextPointPositionIsotropic realMath s start end_).2.accumTime = s.accumTime := by
  simp only [getNextPointPositionIsotropic] at h ⊢
  split_ifs at h ⊢ with h1 h2
  · exact ⟨rfl, rfl⟩
  · exfalso
    have : 0 ≤ (max 0.5 s.spacing.spacing.x - s.accumDistance.x) /
        QVector2D.length realMath (end_.sub start) :=
      div_nonneg (by linarith) (length_nonneg _)
    simp only at h
    linarith
  · exact ⟨rfl, rfl⟩

theorem anisotropic_of_neg (s : Private ℝ) (start end_ : QPointF ℝ)
    (h : (getNextPointPositionAnisotropic realMath s start end_).1 < 0) :
    (getNextPointPositionAnisotropic realMath s start end_).1 = -1 ∧
      (getNextPointPositionAnisotropic realMath s start end_).2.accumTime = s.accumTime := by
  simp only [getNextPointPositionAnisotropic] at h ⊢
  split_ifs at h ⊢ <;>
    first
    | exact ⟨rfl, rfl⟩
    | (exfalso; simp only at h; linarith [(‹_ ∧ _›).1])

theorem spaceFactor_of_neg (s : Private ℝ) (start end_ : QPointF ℝ)
    (hd : s.accumDistance.x ≤ max 0.5 s.spacing.spacing.x)
    (h : (spaceFactor realMath s start end_).1 < 0) :
    (spaceFactor realMath s start end_).1 = -1 ∧
      (spaceFactor realMath s start end_).2.accumTime = s.accumTime := by
  unfold spaceFactor at h ⊢
  split_ifs at h ⊢
  · exact isotropic_of_neg s start end_ hd h
  · exact anisotropic_of_neg s start end_ h

theorem timed_after_reset_neg (s : Private ℝ) (startTime endTime : ℝ)
    (hacc : 0 ≤ s.accumTime)
    (h : (getNextPointPositionTimed s startTime endTime).1 = -1) :
    (getNextPointPositionTimed (resetAccumulators s) startTime endTime).1 < 0 := by
  by_cases hin : ¬ (startTime < endTime) ∨ s.spacing.isTimedSpacingEnabled = false
  · rw [timed_inactive (resetAccumulators s) startTime endTime hin]
    norm_num
  · have hlt : startTime < endTime := by
      by_contra hc
      exact hin (Or.inl hc)
    have hen : s.spacing.isTimedSpacingEnabled = true := by
      cases hb : s.spacing.isTimedSpacingEnabled
      · exact absurd (Or.inr hb) hin
      · rfl
    by_cases hhit : s.spacing.timedSpacingInterval ≤ s.accumTime + endTime - startTime
    · rw [timed_hit s startTime endTime hlt hen hhit] at h
      simp only at h
      have hpos : 0 < s.accumTime + endTime - startTime := by linarith
      have hI : s.spacing.timedSpacingInterval = -(s.accumTime + endTime - startTime) := by
        have := (div_eq_iff (ne_of_gt hpos)).mp h
        linarith
      have hneg : s.spacing.timedSpacingInterval < 0 := by linarith
      rw [timed_hit (resetAccumulators s) startTime endTime hlt hen (by
        simp only [resetAccumulators]
        linarith)]
      simp only [resetAccumulators]
      exact div_neg_of_neg_of_pos hneg (by linarith)
    · rw [timed_miss (resetAccumulators s) startTime endTime hlt hen (by
        simp only [resetAccumulators]
        linarith)]
      norm_num

theorem rotatedDiff_sq (s : Private ℝ) (start end_ : QPointF ℝ) :
    (rotatedDiff realMath s start end_).x ^ 2 + (rotatedDiff realMath s start end_).y ^ 2 =
      (end_.x - start.x) ^ 2 + (end_.y - start.y) ^ 2 := by
  simp only [rotatedDiff]
  split_ifs
  · simp only [QTransform.rotateRadiansMap, QPointF.sub, realMath]
    have h := Real.sin_sq_add_cos_sq (currentRotation
      (⟨Real.sqrt, Real.sin, Real.cos, Real.pi⟩ : QMath ℝ) s)
    nlinarith [h]
  · rfl

theorem rotatedDiff_pos (s : Private ℝ) (start end_ : QPointF ℝ)
    (hne : ¬ (start.x = end_.x ∧ start.y = end_.y)) :
    0 < (rotatedDiff realMath s start end_).x ^ 2 + (rotatedDiff realMath s start end_).y ^ 2 := by
  rw [rotatedDiff_sq]
  by_cases hx : start.x = end_.x
  · have hy : end_.y - start.y ≠ 0 := fun h => hne ⟨hx, by linarith⟩
    have := sq_pos_of_ne_zero hy
    nlinarith [sq_nonneg (end_.x - start.x)]
  · have hx2 : end_.x - start.x ≠ 0 := fun h => hx (by linarith)
    have := sq_pos_of_ne_zero hx2
    nlinarith [sq_nonneg (end_.y - start.y)]

theorem radius_pos (v : ℝ) : 0 < max 0.5 v :=
  lt_of_lt_of_le (by norm_num) (le_max_left _ _)

theorem ellipse_alpha_pos (s : Private ℝ) (start end_ : QPointF ℝ) (a b dx dy alpha : ℝ)
    (ha : a = max 0.5 s.spacing.spacing.x) (hb : b = max 0.5 s.spacing.spacing.y)
    (hdx : dx = |(rotatedDiff realMath s start end_).x|)
    (hdy : dy = |(rotatedDiff realMath s start end_).y|)
    (halpha : alpha = (dx / a) ^ 2 + (dy / b) ^ 2)
    (hne : ¬ (start.x = end_.x ∧ start.y = end_.y)) : 0 < alpha := by
  have hapos : 0 < a := by rw [ha]; exact radius_pos _
  have hbpos : 0 < b := by rw [hb]; exact radius_pos _
  have hpos := rotatedDiff_pos s start end_ hne
  have h1 : dx ^ 2 = (rotatedDiff realMath s start end_).x ^ 2 := by rw [hdx, sq_abs]
  have h2 : dy ^ 2 = (rotatedDiff realMath s start end_).y ^ 2 := by rw [hdy, sq_abs]
  rw [halpha, div_pow, div_pow, h1, h2]
  by_cases hx : (rotatedDiff realMath s start end_).x = 0
  · have hy : (rotatedDiff realMath s start end_).y ≠ 0 := by
      intro hy
      rw [hx, hy] at hpos
      norm_num at hpos
    have : 0 < (rotatedDiff realMath s start end_).y ^ 2 / b ^ 2 :=
      div_pos (sq_pos_of_ne_zero hy) (by positivity)
    have : 0 ≤ (rotatedDiff realMath s start end_).x ^ 2 / a ^ 2 := by positivity
    linarith
  · have : 0 < (rotatedDiff realMath s start end_).x ^ 2 / a ^ 2 :=
      div_pos (sq_pos_of_ne_zero hx) (by positivity)
    have : 0 ≤ (rotatedDiff realMath s start end_).y ^ 2 / b ^ 2 := by positivity
    linarith

theorem ellipse_step_inside (alpha beta gamma : ℝ) (hα : 0 < alpha) (hβ : 0 ≤ beta)
    (hγ : gamma < 0)
    (hk : ¬ (0 ≤ (-beta + Real.sqrt (beta ^ 2 - alpha * gamma)) / alpha ∧
      (-beta + Real.sqrt (beta ^ 2 - alpha * gamma)) / alpha ≤ 1)) :
    alpha + 2 * beta + gamma < 0 := by
  have hD : 0 ≤ beta ^ 2 - alpha * gamma := by nlinarith [sq_nonneg beta, mul_pos hα (neg_pos.mpr hγ)]
  have hs := Real.sq_sqrt hD
  have hs0 := Real.sqrt_nonneg (beta ^ 2 - alpha * gamma)
  have hge : beta ≤ Real.sqrt (beta ^ 2 - alpha * gamma) := by
    by_contra hc
    push_neg at hc
    nlinarith [mul_pos hα (neg_pos.mpr hγ)]
  have hk0 : 0 ≤ (-beta + Real.sqrt (beta ^ 2 - alpha * gamma)) / alpha :=
    div_nonneg (by linarith) hα.le
  have hk1 : 1 < (-beta + Real.sqrt (beta ^ 2 - alpha * gamma)) / alpha := by
    by_contra hc
    exact hk ⟨hk0, not_lt.mp hc⟩
  have hgt : alpha + beta < Real.sqrt (beta ^ 2 - alpha * gamma) := by
    have := (lt_div_iff₀ hα).mp hk1
    linarith
  have hsq : (alpha + beta) ^ 2 < beta ^ 2 - alpha * gamma := by
    nlinarith
  by_contra hc
  push_neg at hc
  nlinarith

theorem discriminant_nonneg (alpha beta gamma : ℝ) (hα : 0 ≤ alpha) (hγ : gamma < 0) :
    0 ≤ beta ^ 2 - alpha * gamma := by
  nlinarith [sq_nonneg beta, mul_nonneg hα (neg_nonneg.mpr hγ.le)]

theorem insideEllipse_reset (s : Private ℝ) : insideEllipse (resetAccumulators s) := by
  simp [insideEllipse, resetAccumulators, QPointF.null]

theorem anisotropic_insideEllipse (s : Private ℝ) (start end_ : QPointF ℝ)
    (h : insideEllipse s) :
    insideEllipse (getNextPointPositionAnisotropic realMath s start end_).2 := by
  by_cases hne : start.x = end_.x ∧ start.y = end_.y
  · simp only [getNextPointPositionAnisotropic, if_pos hne]
    exact h
  · obtain ⟨a, ha⟩ : ∃ a : ℝ, a = max 0.5 s.spacing.spacing.x := ⟨_, rfl⟩
    obtain ⟨b, hb⟩ : ∃ b : ℝ, b = max 0.5 s.spacing.spacing.y := ⟨_, rfl⟩
    obtain ⟨dx, hdx⟩ : ∃ dx : ℝ, dx = |(rotatedDiff realMath s start end_).x| := ⟨_, rfl⟩
    obtain ⟨dy, hdy⟩ : ∃ dy : ℝ, dy = |(rotatedDiff realMath s start end_).y| := ⟨_, rfl⟩
    obtain ⟨alpha, halpha⟩ : ∃ alpha : ℝ, alpha = (dx / a) ^ 2 + (dy / b) ^ 2 := ⟨_, rfl⟩
    obtain ⟨beta, hbeta⟩ : ∃ beta : ℝ,
      beta = s.accumDistance.x * dx / a ^ 2 + s.accumDistance.y * dy / b ^ 2 := ⟨_, rfl⟩
    obtain ⟨gamma, hgamma⟩ : ∃ gamma : ℝ,
      gamma = (s.accumDistance.x / a) ^ 2 + (s.accumDistance.y / b) ^ 2 - 1 := ⟨_, rfl⟩
    have hc := anisotropic_cases s start end_ a b _ _ dx dy alpha beta gamma _
      ha hb rfl rfl hdx hdy halpha hbeta hgamma rfl hne
    have hα := ellipse_alpha_pos s start end_ a b dx dy alpha ha hb hdx hdy halpha hne
    have hdx0 : 0 ≤ dx := by rw [hdx]; exact abs_nonneg _
    have hdy0 : 0 ≤ dy := by rw [hdy]; exact abs_nonneg _
    have hγ : gamma < 0 := by
      rw [hgamma, ha, hb]
      linarith [h.2.2]
    have hβ : 0 ≤ beta := by
      rw [hbeta]
      exact add_nonneg (div_nonneg (mul_nonneg h.1 hdx0) (sq_nonneg _))
        (div_nonneg (mul_nonneg h.2.1 hdy0) (sq_nonneg _))
    rw [hc]
    split_ifs with hD hk
    · exact insideEllipse_reset s
    · have hstep := ellipse_step_inside alpha beta gamma hα hβ hγ hk
      refine ⟨add_nonneg h.1 hdx0, add_nonneg h.2.1 hdy0, ?_⟩
      simp only []
      rw [← ha, ← hb]
      have hid : ((s.accumDistance.x + dx) / a) ^ 2 + ((s.accumDistance.y + dy) / b) ^ 2 - 1 =
          alpha + 2 * beta + gamma := by
        rw [halpha, hbeta, hgamma]
        ring
      linarith
    · exact h

theorem timed_insideEllipse (s : Private ℝ) (startTime endTime : ℝ) (h : insideEllipse s) :
    insideEllipse (getNextPointPositionTimed s startTime endTime).2 := by
  simp only [getNextPointPositionTimed]
  split_ifs
  · exact h
  · exact insideEllipse_reset s
  · exact h

theorem getNextPointPosition_spacing (s : Private ℝ) (start end_ : QPointF ℝ)
    (startTime endTime : ℝ) :
    (getNextPointPosition realMath s start end_ startTime endTime).2.spacing = s.spacing := by
  rw [getNextPointPosition_eq]
  simp only []
  have ht : ∀ d : Private ℝ,
      (getNextPointPositionTimed d startTime endTime).2.spacing = d.spacing := by
    intro d
    simp only [getNextPointPositionTimed, resetAccumulators]
    split_ifs <;> rfl
  rw [ht, spaceFactor_spacing]

theorem getNextPointPosition_insideEllipse (s : Private ℝ) (start end_ : QPointF ℝ)
    (startTime endTime : ℝ) (hiso : s.spacing.isIsotropic = false) (h : insideEllipse s) :
    insideEllipse (getNextPointPosition realMath s start end_ startTime endTime).2 := by
  rw [getNextPointPosition_eq]
  simp only []
  apply timed_insideEllipse
  have : spaceFactor realMath s start end_ =
      getNextPointPositionAnisotropic realMath s start end_ := by
    simp [spaceFactor, hiso]
  rw [this]
  exact anisotropic_insideEllipse s start end_ h

theorem queryAll_insideEllipse (qs : List (Segment ℝ)) :
    ∀ s : Private ℝ, s.spacing.isIsotropic = false → insideEllipse s →
      insideEllipse (queryAll realMath s qs).2 ∧
        (queryAll realMath s qs).2.spacing = s.spacing := by
  induction qs with
  | nil =>
    intro s _ h
    exact ⟨h, rfl⟩
  | cons q qs ih =>
    intro s hiso h
    rw [queryAll_cons]
    simp only []
    have hsp := getNextPointPosition_spacing s q.start q.end_ q.startTime q.endTime
    have := ih (getNextPointPosition realMath s q.start q.end_ q.startTime q.endTime).2
      (by rw [hsp]; exact hiso)
      (getNextPointPosition_insideEllipse s _ _ _ _ hiso h)
    exact ⟨this.1, by rw [this.2, hsp]⟩

theorem rotation_quarter_turn :
    getNextPointPositionAnisotropic realMath
        (exampleTracker (exampleEllipse 2 1 (Real.pi / 2) false) 0 0 0) ⟨0, 0⟩ ⟨1, 0⟩ =
      (1, exampleTracker (exampleEllipse 2 1 (Real.pi / 2) false) 0 0 0) ∧
    getNextPointPositionAnisotropic realMath
        (exampleTracker (exampleEllipse 2 1 (-(Real.pi / 2)) false) 0 0 0) ⟨0, 0⟩ ⟨1, 0⟩ =
      (-1, exampleTracker (exampleEllipse 2 1 (-(Real.pi / 2)) false) 1 0 0) := by
  have hpi := Real.pi_gt_three
  have hq : Real.sqrt (1 / 4) = 1 / 2 := by
    rw [show ((1 : ℝ) / 4) = (1 / 2) * (1 / 2) by norm_num]
    exact Real.sqrt_mul_self (by norm_num)
  have hgt : Real.pi / 2 > (2e-3 : ℝ) := by norm_num; linarith
  have hng : ¬ (-(Real.pi / 2) > (2e-3 : ℝ)) := by norm_num; linarith
  have hrd1 : rotatedDiff realMath (exampleTracker (exampleEllipse 2 1 (Real.pi / 2) false) 0 0 0)
      ⟨0, 0⟩ ⟨1, 0⟩ = ⟨0, 1⟩ := by
    have hc : currentRotation realMath
        (exampleTracker (exampleEllipse 2 1 (Real.pi / 2) false) 0 0 0) = Real.pi / 2 := by
      simp [currentRotation, exampleTracker, exampleEllipse]
    unfold rotatedDiff
    rw [hc, if_pos hgt]
    simp only [QTransform.rotateRadiansMap, realMath, Real.cos_pi_div_two,
      Real.sin_pi_div_two, QPointF.sub]
    norm_num
  have hrd2 : rotatedDiff realMath
      (exampleTracker (exampleEllipse 2 1 (-(Real.pi / 2)) false) 0 0 0)
      ⟨0, 0⟩ ⟨1, 0⟩ = ⟨1, 0⟩ := by
    have hc : currentRotation realMath
        (exampleTracker (exampleEllipse 2 1 (-(Real.pi / 2)) false) 0 0 0) = -(Real.pi / 2) := by
      simp [currentRotation, exampleTracker, exampleEllipse]
    unfold rotatedDiff
    rw [hc, if_neg hng]
    simp only [QPointF.sub]
    norm_num
  refine ⟨?_, ?_⟩
  · rw [anisotropic_cases (exampleTracker (exampleEllipse 2 1 (Real.pi / 2) false) 0 0 0)
      ⟨0, 0⟩ ⟨1, 0⟩ 2 1 0 0 0 1 1 0 (-1) 1
      (by norm_num [exampleTracker, exampleEllipse])
      (by norm_num [exampleTracker, exampleEllipse])
      rfl rfl (by rw [hrd1]; norm_num) (by rw [hrd1]; norm_num)
      (by norm_num) (by norm_num) (by norm_num) (by norm_num) (by norm_num)]
    norm_num [exampleTracker, resetAccumulators, QPointF.null]
  · rw [anisotropic_cases (exampleTracker (exampleEllipse 2 1 (-(Real.pi / 2)) false) 0 0 0)
      ⟨0, 0⟩ ⟨1, 0⟩ 2 1 0 0 1 0 (1 / 4) 0 (-1) (1 / 4)
      (by norm_num [exampleTracker, exampleEllipse])
      (by norm_num [exampleTracker, exampleEllipse])
      rfl rfl (by rw [hrd2]; norm_num) (by rw [hrd2]; norm_num)
      (by norm_num) (by norm_num) (by norm_num) (by norm_num) (by norm_num)]
    rw [hq]
    norm_num [exampleTracker]

theorem rotation_eighth_turn_flipped :
    (getNextPointPositionAnisotropic realMath
        (exampleTracker (exampleEllipse 2 1 (Real.pi / 4) true) 0 0 0) ⟨0, 0⟩ ⟨1, 1⟩).1 = -1 ∧
    (getNextPointPositionAnisotropic realMath
        (exampleTracker (exampleEllipse 2 1 (-(Real.pi / 4)) true) 0 0 0) ⟨0, 0⟩ ⟨1, 1⟩).1 =
      Real.sqrt 2 / 2 := by
  have hpi := Real.pi_gt_three
  have h2 : Real.sqrt 2 ^ 2 = 2 := Real.sq_sqrt (by norm_num)
  have h2pos : 0 < Real.sqrt 2 := Real.sqrt_pos.mpr (by norm_num)
  have h2le : Real.sqrt 2 ≤ 2 := by nlinarith
  have hhalf : (1 : ℝ) / 2 < Real.sqrt (1 / 2) :=
    (Real.lt_sqrt (by norm_num)).mpr (by norm_num)
  have hgt3 : 2 * Real.pi - Real.pi / 4 > (2e-3 : ℝ) := by norm_num; linarith
  have hgt4 : 2 * Real.pi - -(Real.pi / 4) > (2e-3 : ℝ) := by norm_num; linarith
  have hrd3 : rotatedDiff realMath (exampleTracker (exampleEllipse 2 1 (Real.pi / 4) true) 0 0 0)
      ⟨0, 0⟩ ⟨1, 1⟩ = ⟨Real.sqrt 2, 0⟩ := by
    have hc : currentRotation realMath
        (exampleTracker (exampleEllipse 2 1 (Real.pi / 4) true) 0 0 0) =
        2 * Real.pi - Real.pi / 4 := by
      simp [currentRotation, exampleTracker, exampleEllipse, realMath]
    unfold rotatedDiff
    rw [hc, if_pos hgt3]
    simp only [QTransform.rotateRadiansMap, realMath, Real.cos_two_pi_sub, Real.sin_two_pi_sub,
      Real.cos_pi_div_four, Real.sin_pi_div_four, QPointF.sub]
    congr 1 <;> ring
  have hrd4 : rotatedDiff realMath
      (exampleTracker (exampleEllipse 2 1 (-(Real.pi / 4)) true) 0 0 0)
      ⟨0, 0⟩ ⟨1, 1⟩ = ⟨0, Real.sqrt 2⟩ := by
    have hc : currentRotation realMath
        (exampleTracker (exampleEllipse 2 1 (-(Real.pi / 4)) true) 0 0 0) =
        2 * Real.pi - -(Real.pi / 4) := by
      simp [currentRotation, exampleTracker, exampleEllipse, realMath]
    unfold rotatedDiff
    rw [hc, if_pos hgt4]
    simp only [QTransform.rotateRadiansMap, realMath, Real.cos_two_pi_sub, Real.sin_two_pi_sub,
      Real.cos_neg, Real.sin_neg, Real.cos_pi_div_four, Real.sin_pi_div_four, QPointF.sub]
    congr 1 <;> ring
  refine ⟨?_, ?_⟩
  · rw [anisotropic_cases (exampleTracker (exampleEllipse 2 1 (Real.pi / 4) true) 0 0 0)
      ⟨0, 0⟩ ⟨1, 1⟩ 2 1 0 0 (Real.sqrt 2) 0 (1 / 2) 0 (-1) (1 / 2)
      (by norm_num [exampleTracker, exampleEllipse])
      (by norm_num [exampleTracker, exampleEllipse])
      rfl rfl (by rw [hrd3]; exact (abs_of_pos h2pos).symm) (by rw [hrd3]; norm_num)
      (by rw [div_pow, h2]; norm_num) (by norm_num) (by norm_num) (by norm_num) (by norm_num)]
    have hk : ¬ (0 ≤ (-0 + Real.sqrt (1 / 2)) / (1 / 2) ∧
        (-0 + Real.sqrt (1 / 2)) / (1 / 2) ≤ 1) := by
      intro hc
      have := hc.2
      rw [div_le_iff₀ (by norm_num)] at this
      linarith
    rw [if_pos (by norm_num), if_neg hk]
  · rw [anisotropic_cases (exampleTracker (exampleEllipse 2 1 (-(Real.pi / 4)) true) 0 0 0)
      ⟨0, 0⟩ ⟨1, 1⟩ 2 1 0 0 0 (Real.sqrt 2) 2 0 (-1) 2
      (by norm_num [exampleTracker, exampleEllipse])
      (by norm_num [exampleTracker, exampleEllipse])
      rfl rfl (by rw [hrd4]; norm_num) (by rw [hrd4]; exact (abs_of_pos h2pos).symm)
      (by rw [div_one, h2]; norm_num) (by norm_num) (by norm_num) (by norm_num) (by norm_num)]
    have hk : 0 ≤ (-0 + Real.sqrt 2) / 2 ∧ (-0 + Real.sqrt 2) / 2 ≤ 1 := by
      constructor
      · positivity
      · rw [div_le_iff₀ (by norm_num)]
        linarith
    rw [if_pos (by norm_num), if_pos hk]
    norm_num

theorem isotropic_frame (m : QMath ℝ) (d : Private ℝ) (start end_ : QPointF ℝ) :
    (getNextPointPositionIsotropic m d start end_).2 =
      { d with
        accumDistance := (getNextPointPositionIsotropic m d start end_).2.accumDistance
        accumTime := (getNextPointPositionIsotropic m d start end_).2.accumTime } := by
  simp only [getNextPointPositionIsotropic, resetAccumulators]
  split_ifs <;> rfl

theorem anisotropic_frame (m : QMath ℝ) (d : Private ℝ) (start end_ : QPointF ℝ) :
    (getNextPointPositionAnisotropic m d start end_).2 =
      { d with
        accumDistance := (getNextPointPositionAnisotropic m d start end_).2.accumDistance
        accumTime := (getNextPointPositionAnisotropic m d start end_).2.accumTime } := by
  simp only [getNextPointPositionAnisotropic, resetAccumulators]
  split_ifs <;> rfl

theorem spaceFactor_frame (m : QMath ℝ) (d : Private ℝ) (start end_ : QPointF ℝ) :
    (spaceFactor m d start end_).2 =
      { d with
        accumDistance := (spaceFactor m d start end_).2.accumDistance
        accumTime := (spaceFactor m d start end_).2.accumTime } := by
  unfold spaceFactor
  split_ifs
  · exact isotropic_frame m d start end_
  · exact anisotropic_frame m d start end_

theorem timed_frame (d : Private ℝ) (startTime endTime : ℝ) :
    (getNextPointPositionTimed d startTime endTime).2 =
      { d with
        accumDistance := (getNextPointPositionTimed d startTime endTime).2.accumDistance
        accumTime := (getNextPointPositionTimed d startTime endTime).2.accumTime } := by
  simp only [getNextPointPositionTimed, resetAccumulators]
  split_ifs <;> rfl

theorem frame_trans (d e f : Private ℝ)
    (h1 : e = { d with accumDistance := e.accumDistance, accumTime := e.accumTime })
    (h2 : f = { e with accumDistance := f.accumDistance, accumTime := f.accumTime }) :
    f = { d with accumDistance := f.accumDistance, accumTime := f.accumTime } := by
  cases d
  cases e
  cases f
  simp only [Private.mk.injEq, true_and] at h1 h2 ⊢
  obtain ⟨a1, a2, a3, a4, a5, a6, a7, a8, a9, a10⟩ := h1
  obtain ⟨b1, b2, b3, b4, b5, b6, b7, b8, b9, b10⟩ := h2
  exact ⟨b1.trans a1, b2.trans a2, b3.trans a3, b4.trans a4, b5.trans a5, b6.trans a6,
    b7.trans a7, b8.trans a8, b9.trans a9, b10.trans a10⟩

theorem getNextPointPosition_frame (s : Private ℝ) (start end_ : QPointF ℝ)
    (startTime endTime : ℝ) :
    (getNextPointPosition realMath s start end_ startTime endTime).2 =
      { s with
        accumDistance :=
          (getNextPointPosition realMath s start end_ startTime endTime).2.accumDistance
        accumTime :=
          (getNextPointPosition realMath s start end_ startTime endTime).2.accumTime } := by
  rw [getNextPointPosition_eq]
  simp only []
  exact frame_trans s _ _ (spaceFactor_frame realMath s start end_) (timed_frame _ _ _)

theorem run_locked (angle : KisPaintInformation ℝ → Private ℝ → ℝ) (d : Private ℝ)
    (c : Call ℝ) (hc : ∀ a : ℝ, c ≠ Call.setLockedDrawingAngle a) :
    (Call.run realMath angle d c).hasLockedDrawingAngle = d.hasLockedDrawingAngle ∧
      (Call.run realMath angle d c).lockedDrawingAngle = d.lockedDrawingAngle := by
  cases c with
  | registerPaintedDab info spacing => exact ⟨rfl, rfl⟩
  | getNextPointPosition start end_ startTime endTime =>
    have h := getNextPointPosition_frame d start end_ startTime endTime
    have h1 := congrArg Private.hasLockedDrawingAngle h
    have h2 := congrArg Private.lockedDrawingAngle h
    exact ⟨h1, h2⟩
  | overrideLastValues lastPosition lastTime => exact ⟨rfl, rfl⟩
  | setLockedDrawingAngle a => exact absurd rfl (hc a)

theorem runAll_locked (angle : KisPaintInformation ℝ → Private ℝ → ℝ) (cs : List (Call ℝ)) :
    ∀ d : Private ℝ, (∀ c ∈ cs, ∀ a : ℝ, c ≠ Call.setLockedDrawingAngle a) →
      (runAll realMath angle d cs).hasLockedDrawingAngle = d.hasLockedDrawingAngle ∧
        (runAll realMath angle d cs).lockedDrawingAngle = d.lockedDrawingAngle := by
  induction cs with
  | nil => intro d _; exact ⟨rfl, rfl⟩
  | cons c cs ih =>
    intro d hcs
    have h1 := run_locked angle d c (hcs c (List.mem_cons_self _ _))
    have h2 := ih (Call.run realMath angle d c)
      (fun c' hc' => hcs c' (List.mem_cons_of_mem _ hc'))
    exact ⟨h2.1.trans h1.1, h2.2.trans h1.2⟩

theorem anisotropicStepRounded_exact (m : QMath ℝ) (d : Private ℝ) (start end_ : QPointF ℝ)
    (hne : ¬ (start.x = end_.x ∧ start.y = end_.y)) :
    (anisotropicStepRounded id m.qSqrt d (rotatedDiff m d start end_)).1 =
        (getNextPointPositionAnisotropic m d start end_).1 ∧
      (anisotropicStepRounded id m.qSqrt d (rotatedDiff m d start end_)).2.1 =
        (getNextPointPositionAnisotropic m d start end_).2 := by
  simp only [anisotropicStepRounded, D_4Rounded, alphaRounded, betaRounded, gammaRounded,
    getNextPointPositionAnisotropic, if_neg hne, id, rotatedDiff, currentRotation,
    QPointF.add, KisAlgebra2D.abs]
  split_ifs <;> exact ⟨rfl, rfl⟩

theorem floor_bounds (v : ℚ) (hv : 0 ≤ v) :
    ((v.num.natAbs / v.den : ℕ) : ℚ) ≤ v ∧ v < ((v.num.natAbs / v.den : ℕ) : ℚ) + 1 := by
  have hnum : 0 ≤ v.num := Rat.num_nonneg.mpr hv
  have hdpos : 0 < v.den := v.den_pos
  have hden : (0 : ℚ) < (v.den : ℚ) := by exact_mod_cast hdpos
  have h1 : ((v.num.natAbs : ℕ) : ℤ) = v.num := Int.natAbs_of_nonneg hnum
  have h2 : ((v.num.natAbs : ℕ) : ℚ) = (v.num : ℚ) := by
    rw [Nat.cast_natAbs, abs_of_nonneg hnum]
  have hv' : v = ((v.num.natAbs : ℕ) : ℚ) / (v.den : ℚ) := by
    rw [h2]
    exact (Rat.num_div_den v).symm
  generalize v.num.natAbs = n at hv'
  generalize v.den = d at hv' hdpos hden
  subst hv'
  constructor
  · rw [le_div_iff₀ hden]
    exact_mod_cast Nat.div_mul_le_self n d
  · rw [div_lt_iff₀ hden]
    have := Nat.lt_mul_div_succ n hdpos
    have h3 : (n : ℚ) < (d : ℚ) * (((n / d : ℕ) : ℚ) + 1) := by exact_mod_cast this
    linarith

theorem roundHalfEven_near (v : ℚ) (hv : 0 ≤ v) :
    |(roundHalfEven v : ℚ) - v| ≤ 1 / 2 := by
  obtain ⟨hlo, hhi⟩ := floor_bounds v hv
  simp only [roundHalfEven]
  have hmod : (v.num.natAbs / v.den) % 2 = 0 ∨ (v.num.natAbs / v.den) % 2 = 1 :=
    Nat.mod_two_eq_zero_or_one _
  rw [abs_le]
  split_ifs with h1 h2
  · push_cast
    constructor <;> linarith
  · rcases hmod with h | h
    · rw [h]
      push_cast
      constructor <;> linarith
    · rw [h]
      push_cast
      constructor <;> linarith
  · have h3 : 2 * (v - ((v.num.natAbs / v.den : ℕ) : ℚ)) < 1 :=
      lt_of_le_of_ne (not_lt.mp h1) h2
    constructor <;> linarith

theorem twoPow_pos (e : Int) : 0 < twoPow e := by
  simp only [twoPow]
  split_ifs
  · positivity
  · positivity

theorem roundDouble_near (q : ℚ) :
    |roundDouble q - q| ≤ 1 / 2 / twoPow (52 - binaryExponent q) ∧
      ∃ n : ℕ, |roundDouble q| = (n : ℚ) / twoPow (52 - binaryExponent q) := by
  have hP := twoPow_pos (52 - binaryExponent q)
  by_cases hq : q = 0
  · subst hq
    refine ⟨?_, 0, ?_⟩
    · simp only [roundDouble, if_true, sub_zero, abs_zero]
      positivity
    · simp [roundDouble]
  · have hnear := roundHalfEven_near (|q| * twoPow (52 - binaryExponent q))
      (mul_nonneg (abs_nonneg q) hP.le)
    simp only [roundDouble, if_neg hq]
    constructor
    · rw [le_div_iff₀ hP]
      by_cases hneg : q < 0
      · rw [if_pos hneg, abs_of_neg hneg] at *
        have : |-1 * (roundHalfEven (-q * twoPow (52 - binaryExponent q)) : ℚ) /
            twoPow (52 - binaryExponent q) - q| * twoPow (52 - binaryExponent q) =
            |(roundHalfEven (-q * twoPow (52 - binaryExponent q)) : ℚ) -
              -q * twoPow (52 - binaryExponent q)| := by
          rw [← abs_of_pos hP, ← abs_mul, abs_of_pos hP, ← abs_neg]
          congr 1
          field_simp
          ring
        rw [this]
        exact hnear
      · rw [if_neg hneg, abs_of_nonneg (not_lt.mp hneg)] at *
        have : |1 * (roundHalfEven (q * twoPow (52 - binaryExponent q)) : ℚ) /
            twoPow (52 - binaryExponent q) - q| * twoPow (52 - binaryExponent q) =
            |(roundHalfEven (q * twoPow (52 - binaryExponent q)) : ℚ) -
              q * twoPow (52 - binaryExponent q)| := by
          rw [← abs_of_pos hP, ← abs_mul, abs_of_pos hP]
          congr 1
          field_simp
          ring
        rw [this]
        exact hnear
    · refine ⟨roundHalfEven (|q| * twoPow (52 - binaryExponent q)), ?_⟩
      rw [abs_div, abs_mul, abs_of_pos hP]
      congr 1
      have h1 : |(if q < 0 then (-1 : ℚ) else 1)| = 1 := by
        split_ifs <;> simp
      rw [h1, one_mul]
      exact abs_of_nonneg (Nat.cast_nonneg _)

theorem roundDouble_samples :
    roundDouble (1 / 10) = 3602879701896397 / 36028797018963968 ∧
    roundDouble (13 / 10) = 5854679515581645 / 4503599627370496 ∧
    roundDouble (-(13 / 10)) = -(5854679515581645 / 4503599627370496) ∧
    roundDouble 3 = 3 ∧
    roundDouble (2 ^ 53 + 1) = 2 ^ 53 ∧
    roundDouble (2 ^ 53 + 3) = 2 ^ 53 + 4 ∧
    sqrtDouble 2 = 6369051672525773 / 4503599627370496 ∧
    sqrtDouble (9 / 4) = 3 / 2 := by
  decide!

end KisDistanceInformation

/-! ## The claims -/

namespace KisDistanceInformation

/-- C1: whenever timed spacing is disabled or its interval is positive,
`getNextPointPosition` returns either exactly -1 or a factor between 0 and 1,
for every tracker, segment and pair of times; in particular the time-based
factor is -1 or lies in the interval from 0 to 1. -/
theorem getNextPointPosition_range (d : Private ℝ) (start end_ : QPointF ℝ)
    (startTime endTime : ℝ)
    (h : d.spacing.isTimedSpacingEnabled = false ∨ 0 < d.spacing.timedSpacingInterval) :
    ((getNextPointPosition realMath d start end_ startTime endTime).1 = -1 ∨
      (0 ≤ (getNextPointPosition realMath d start end_ startTime endTime).1 ∧
        (getNextPointPosition realMath d start end_ startTime endTime).1 ≤ 1)) ∧
    ((getNextPointPositionTimed d startTime endTime).1 = -1 ∨
      (0 ≤ (getNextPointPositionTimed d startTime endTime).1 ∧
        (getNextPointPositionTimed d startTime endTime).1 ≤ 1)) := by
  have hs := spaceFactor_le_one d start end_
  have h' : (spaceFactor realMath d start end_).2.spacing.isTimedSpacingEnabled = false ∨
      0 < (spaceFactor realMath d start end_).2.spacing.timedSpacingInterval := by
    rw [spaceFactor_spacing]
    exact h
  have ht := timed_range (spaceFactor realMath d start end_).2 startTime endTime h'
  refine ⟨?_, ?_⟩
  · simp only [getNextPointPosition]
    split_ifs with h1 h2
    · rcases ht with ht | ht
      · exact Or.inl ht
      · exact Or.inr ⟨ht.1.le, ht.2⟩
    · exact Or.inr ⟨not_lt.mp h1, hs⟩
    · exact Or.inr ⟨le_min (not_lt.mp h1) (not_lt.mp h2), le_trans (min_le_left _ _) hs⟩
  · rcases timed_range d startTime endTime h with ht | ht
    · exact Or.inl ht
    · exact Or.inr ⟨ht.1.le, ht.2⟩

/-- Witness of C1: an isotropic tracker of radius 10 with timed spacing every
3 time units, asked about the segment from (0,0) to (15,0) over one time unit. -/
theorem getNextPointPosition_range_witness :
    ((exampleTracker (exampleSpacing true 10 10 true 3) 0 0 0 :
          Private ℝ).spacing.isTimedSpacingEnabled = false ∨
        0 < (exampleTracker (exampleSpacing true 10 10 true 3) 0 0 0 :
          Private ℝ).spacing.timedSpacingInterval) ∧
      ((getNextPointPosition realMath (exampleTracker (exampleSpacing true 10 10 true 3) 0 0 0)
            ⟨0, 0⟩ ⟨15, 0⟩ 0 1).1 = -1 ∨
        (0 ≤ (getNextPointPosition realMath (exampleTracker (exampleSpacing true 10 10 true 3) 0 0 0)
            ⟨0, 0⟩ ⟨15, 0⟩ 0 1).1 ∧
          (getNextPointPosition realMath (exampleTracker (exampleSpacing true 10 10 true 3) 0 0 0)
            ⟨0, 0⟩ ⟨15, 0⟩ 0 1).1 ≤ 1)) :=
  ⟨Or.inr (by norm_num [exampleTracker, exampleSpacing]),
    (getNextPointPosition_range (exampleTracker (exampleSpacing true 10 10 true 3) 0 0 0)
      ⟨0, 0⟩ ⟨15, 0⟩ 0 1 (Or.inr (by norm_num [exampleTracker, exampleSpacing]))).1⟩

/-- C2: the isotropic step law.  With `r = max(0.5, spacing.x)`, accumulated
distance `d = accumDistance.x` and a segment from `start` to a different point
`end_` of Euclidean length `L`, the length is positive, and
`getNextPointPositionIsotropic` returns `(r - d) / L` and resets `accumDistance`
to (0,0) and `accumTime` to 0 when `r - d ≤ L`; otherwise it returns -1, adds
`L` to `accumDistance.x` and changes nothing else. -/
theorem isotropic_step_law (s : Private ℝ) (start end_ : QPointF ℝ) (r d L : ℝ)
    (hr : r = max 0.5 s.spacing.spacing.x) (hd : d = s.accumDistance.x)
    (hL : L = Real.sqrt ((end_.x - start.x) ^ 2 + (end_.y - start.y) ^ 2))
    (hne : ¬ (start.x = end_.x ∧ start.y = end_.y)) :
    0 < L ∧
    (r - d ≤ L →
      getNextPointPositionIsotropic realMath s start end_ =
        ((r - d) / L, { s with accumDistance := ⟨0, 0⟩, accumTime := 0 })) ∧
    (¬ (r - d ≤ L) →
      getNextPointPositionIsotropic realMath s start end_ =
        (-1, { s with accumDistance := ⟨d + L, s.accumDistance.y⟩ })) := by
  have hlen : QVector2D.length realMath (end_.sub start) = L := by
    rw [length_real, hL]
    simp only [QPointF.sub, sq]
  have hpos := length_pos start end_ hne
  rw [hlen] at hpos
  refine ⟨hpos, ?_, ?_⟩
  · intro h
    simp only [getNextPointPositionIsotropic, hlen, ← hr, ← hd]
    rw [if_neg hne, if_pos h]
    rfl
  · intro h
    simp only [getNextPointPositionIsotropic, hlen, ← hr, ← hd]
    rw [if_neg hne, if_neg h]

/-- Witness of C2: radius 10, accumulated distance 6, segment from (0,0) to
(3,4) of length 5: the dab falls at 4/5 of the segment. -/
theorem isotropic_step_law_witness :
    ¬ ((⟨0, 0⟩ : QPointF ℝ).x = (⟨3, 4⟩ : QPointF ℝ).x ∧
        (⟨0, 0⟩ : QPointF ℝ).y = (⟨3, 4⟩ : QPointF ℝ).y) ∧
      getNextPointPositionIsotropic realMath
          (exampleTracker (exampleSpacing true 10 10 false 0) 6 0 7) ⟨0, 0⟩ ⟨3, 4⟩ =
        (((10 : ℝ) - 6) / 5,
          { (exampleTracker (exampleSpacing true 10 10 false 0) 6 0 7 : Private ℝ) with
            accumDistance := ⟨0, 0⟩, accumTime := 0 }) :=
  ⟨by norm_num,
    (isotropic_step_law (exampleTracker (exampleSpacing true 10 10 false 0) 6 0 7)
      ⟨0, 0⟩ ⟨3, 4⟩ 10 6 5
      (by norm_num [exampleTracker, exampleSpacing])
      (by norm_num [exampleTracker])
      (by
        rw [show (((3 : ℝ) - 0) ^ 2 + ((4 : ℝ) - 0) ^ 2) = 5 * 5 by norm_num]
        exact (Real.sqrt_mul_self (by norm_num)).symm)
      (by norm_num)).2.1 (by norm_num)⟩

/-- C3: the isotropic threshold across segments.  An isotropic tracker with
timed spacing disabled and zero accumulated distance is asked about segments
with distinct end points, of lengths `L1 .. Ln` (the queries `pre` and then
`last`), where `L1 + .. + L(n-1) < r ≤ L1 + .. + Ln` for the radius
`r = max(0.5, spacing.x)`.  Then the first `n - 1` calls of
`getNextPointPosition` return -1, the last returns a factor `t` with
`L1 + .. + L(n-1) + t * Ln = r`, and the accumulated distance is zero
afterwards. -/
theorem isotropic_threshold (s : Private ℝ) (pre : List (Segment ℝ)) (last : Segment ℝ)
    (r : ℝ) (hr : r = max 0.5 s.spacing.spacing.x)
    (hiso : s.spacing.isIsotropic = true)
    (htimed : s.spacing.isTimedSpacingEnabled = false)
    (hzero : s.accumDistance = ⟨0, 0⟩)
    (hnd : ∀ q ∈ pre ++ [last], ¬ (q.start.x = q.end_.x ∧ q.start.y = q.end_.y))
    (hlt : (pre.map (Segment.length realMath)).sum < r)
    (hle : r ≤ (pre.map (Segment.length realMath)).sum + last.length realMath) :
    ∃ t : ℝ,
      (queryAll realMath s (pre ++ [last])).1 = List.replicate pre.length (-1) ++ [t] ∧
      (pre.map (Segment.length realMath)).sum + t * last.length realMath = r ∧
      (queryAll realMath s (pre ++ [last])).2.accumDistance = ⟨0, 0⟩ := by
  have hx : s.accumDistance.x = 0 := by rw [hzero]
  obtain ⟨t, h1, h2, h3⟩ := queryAll_threshold pre s last hiso htimed hnd
    (by rw [hx, zero_add, ← hr]; exact hlt) (by rw [hx, zero_add, ← hr]; exact hle)
  refine ⟨t, h1, ?_, h3⟩
  rw [hx, zero_add, ← hr] at h2
  exact h2

/-- Witness of C3: radius 10, zero accumulated distance, the segment from
(0,0) to (4,0) and then the segment from (4,0) to (12,0): the first call
returns -1, the second returns 3/4 (4 + 3/4 * 8 = 10), and the accumulated
distance is zero afterwards. -/
theorem isotropic_threshold_witness :
    (([⟨⟨0, 0⟩, ⟨4, 0⟩, 0, 1⟩] : List (Segment ℝ)).map (Segment.length realMath)).sum < 10 ∧
    (queryAll realMath (exampleTracker (exampleSpacing true 10 10 false 0) 0 0 0)
        ([⟨⟨0, 0⟩, ⟨4, 0⟩, 0, 1⟩] ++ [⟨⟨4, 0⟩, ⟨12, 0⟩, 1, 2⟩])).1 = [-1, 3 / 4] ∧
    (queryAll realMath (exampleTracker (exampleSpacing true 10 10 false 0) 0 0 0)
        ([⟨⟨0, 0⟩, ⟨4, 0⟩, 0, 1⟩] ++ [⟨⟨4, 0⟩, ⟨12, 0⟩, 1, 2⟩])).2.accumDistance = ⟨0, 0⟩ := by
  have hl1 : Segment.length realMath (⟨⟨0, 0⟩, ⟨4, 0⟩, 0, 1⟩ : Segment ℝ) = 4 :=
    length_eq_of_sq _ 4 (by norm_num) (by norm_num [QPointF.sub])
  have hl2 : Segment.length realMath (⟨⟨4, 0⟩, ⟨12, 0⟩, 1, 2⟩ : Segment ℝ) = 8 :=
    length_eq_of_sq _ 8 (by norm_num) (by norm_num [QPointF.sub])
  have hsum : (([⟨⟨0, 0⟩, ⟨4, 0⟩, 0, 1⟩] : List (Segment ℝ)).map
      (Segment.length realMath)).sum = 4 := by
    simp only [List.map_cons, List.map_nil, List.sum_cons, List.sum_nil, hl1, add_zero]
  obtain ⟨t, h1, h2, h3⟩ := isotropic_threshold
    (exampleTracker (exampleSpacing true 10 10 false 0) 0 0 0)
    [⟨⟨0, 0⟩, ⟨4, 0⟩, 0, 1⟩] ⟨⟨4, 0⟩, ⟨12, 0⟩, 1, 2⟩ 10
    (by norm_num [exampleTracker, exampleSpacing])
    rfl rfl rfl
    (by
      intro q hq
      simp only [List.cons_append, List.nil_append, List.mem_cons, List.mem_singleton,
        List.not_mem_nil, or_false] at hq
      rcases hq with rfl | rfl <;> norm_num)
    (by rw [hsum]; norm_num)
    (by rw [hsum, hl2]; norm_num)
  rw [hsum, hl2] at h2
  have ht : t = 3 / 4 := by linarith
  subst ht
  refine ⟨by rw [hsum]; norm_num, ?_, h3⟩
  rw [h1]
  rfl

/-- C4: the time trigger is independent of space.  Timed spacing is enabled
with interval `I`, the accumulated time is 0, and in two successive calls
with elapsed times `dt1 = b1 - a1 > 0` and `dt2 = b2 - a2 > 0`, where
`dt1 < I ≤ dt1 + dt2` (so that `I > 0`), the spatial solver does not trigger (it returns -1 and
leaves the accumulated time alone).  Then the first call of
`getNextPointPosition` returns -1 and leaves `accumTime = dt1`, and the second
returns `I / (dt1 + dt2)` and resets `accumTime` to 0.  Moreover, on every
tracker, the timed solver returns -1 and changes nothing when the start time is
not before the end time or timed spacing is disabled. -/
theorem timed_trigger (s : Private ℝ) (p1 q1 p2 q2 : QPointF ℝ) (a1 b1 a2 b2 I : ℝ)
    (hen : s.spacing.isTimedSpacingEnabled = true)
    (hI : I = s.spacing.timedSpacingInterval)
    (hacc : s.accumTime = 0)
    (hdt1 : 0 < b1 - a1) (hdt2 : 0 < b2 - a2)
    (hlt : b1 - a1 < I) (hle : I ≤ (b1 - a1) + (b2 - a2))
    (hs1 : (spaceFactor realMath s p1 q1).1 = -1 ∧
      (spaceFactor realMath s p1 q1).2.accumTime = s.accumTime)
    (hs2 : (spaceFactor realMath (getNextPointPosition realMath s p1 q1 a1 b1).2 p2 q2).1 = -1 ∧
      (spaceFactor realMath (getNextPointPosition realMath s p1 q1 a1 b1).2 p2 q2).2.accumTime =
        (getNextPointPosition realMath s p1 q1 a1 b1).2.accumTime) :
    (getNextPointPosition realMath s p1 q1 a1 b1).1 = -1 ∧
    (getNextPointPosition realMath s p1 q1 a1 b1).2.accumTime = b1 - a1 ∧
    (getNextPointPosition realMath (getNextPointPosition realMath s p1 q1 a1 b1).2
        p2 q2 a2 b2).1 = I / ((b1 - a1) + (b2 - a2)) ∧
    (getNextPointPosition realMath (getNextPointPosition realMath s p1 q1 a1 b1).2
        p2 q2 a2 b2).2.accumTime = 0 ∧
    (∀ (d : Private ℝ) (startTime endTime : ℝ),
      (¬ (startTime < endTime) ∨ d.spacing.isTimedSpacingEnabled = false) →
      getNextPointPositionTimed d startTime endTime = (-1, d)) := by
  -- the first call
  have e1 : (spaceFactor realMath s p1 q1).2.spacing = s.spacing := spaceFactor_spacing _ _ _ _
  have t1 := timed_miss (spaceFactor realMath s p1 q1).2 a1 b1 (by linarith)
    (by rw [e1]; exact hen) (by rw [e1, hs1.2, hacc, ← hI]; linarith)
  have g1 : getNextPointPosition realMath s p1 q1 a1 b1 =
      (-1, { (spaceFactor realMath s p1 q1).2 with accumTime := b1 - a1 }) := by
    rw [getNextPointPosition_eq, t1, hs1.1, hs1.2, hacc]
    norm_num
  -- the second call
  rw [g1] at hs2 ⊢
  simp only at hs2 ⊢
  have e2 : (spaceFactor realMath
      { (spaceFactor realMath s p1 q1).2 with accumTime := b1 - a1 } p2 q2).2.spacing =
      s.spacing := by
    rw [spaceFactor_spacing]
    exact e1
  have t2 := timed_hit (spaceFactor realMath
      { (spaceFactor realMath s p1 q1).2 with accumTime := b1 - a1 } p2 q2).2 a2 b2
    (by linarith) (by rw [e2]; exact hen) (by rw [e2, hs2.2, ← hI]; linarith)
  refine ⟨trivial, trivial, ?_, ?_, fun d a b h => timed_inactive d a b h⟩
  · rw [getNextPointPosition_eq, t2, hs2.1, hs2.2, e2, ← hI]
    norm_num
    ring_nf
  · rw [getNextPointPosition_eq, t2]
    rfl

/-- Witness of C4: an isotropic radius of 1000, timed spacing every 3 time
units, two unit segments taking 2 time units each: the first call returns -1,
the second returns 3/4. -/
theorem timed_trigger_witness :
    ((2 : ℝ) - 0 < 3 ∧ (3 : ℝ) ≤ (2 - 0) + (4 - 2)) ∧
    (getNextPointPosition realMath (exampleTracker (exampleSpacing true 1000 1000 true 3) 0 0 0)
        ⟨0, 0⟩ ⟨1, 0⟩ 0 2).1 = -1 ∧
    (getNextPointPosition realMath
        (getNextPointPosition realMath
          (exampleTracker (exampleSpacing true 1000 1000 true 3) 0 0 0) ⟨0, 0⟩ ⟨1, 0⟩ 0 2).2
        ⟨1, 0⟩ ⟨2, 0⟩ 2 4).1 = 3 / ((2 - 0) + (4 - 2)) := by
  have g1 : getNextPointPosition realMath
      (exampleTracker (exampleSpacing true 1000 1000 true 3) 0 0 0) ⟨0, 0⟩ ⟨1, 0⟩ 0 2 =
      (-1, exampleTracker (exampleSpacing true 1000 1000 true 3) 1 0 2) := by
    simp [getNextPointPosition, spaceFactor, getNextPointPositionIsotropic,
      getNextPointPositionTimed, exampleTracker, exampleSpacing, QVector2D.length, realMath,
      QPointF.sub, resetAccumulators]
    norm_num
  have h := timed_trigger (exampleTracker (exampleSpacing true 1000 1000 true 3) 0 0 0)
    ⟨0, 0⟩ ⟨1, 0⟩ ⟨1, 0⟩ ⟨2, 0⟩ 0 2 2 4 3 rfl rfl rfl
    (by norm_num) (by norm_num) (by norm_num) (by norm_num)
    (by
      simp [spaceFactor, getNextPointPositionIsotropic, exampleTracker, exampleSpacing,
        QVector2D.length, realMath, QPointF.sub])
    (by
      rw [g1]
      simp [spaceFactor, getNextPointPositionIsotropic, exampleTracker, exampleSpacing,
        QVector2D.length, realMath, QPointF.sub]
      norm_num)
  exact ⟨by norm_num, h.1, h.2.2.1⟩

/-- C5, the claim as stated fails: radius 9, accumulated time 2, timed
spacing every 3 time units, the segment from (0,0) to (10,0) over 2 time
units.  On this tracker the spatial solver alone returns 9/10 and the timed
solver alone returns 3/4, but `getNextPointPosition` returns 9/10, which is
not the smaller of the two. -/
theorem earlier_wins_counterexample :
    (spaceFactor realMath (exampleTracker (exampleSpacing true 9 9 true 3) 0 0 2)
        ⟨0, 0⟩ ⟨10, 0⟩).1 = 9 / 10 ∧
    (getNextPointPositionTimed
        (exampleTracker (exampleSpacing true 9 9 true 3) 0 0 2 : Private ℝ) 0 2).1 = 3 / 4 ∧
    (getNextPointPosition realMath (exampleTracker (exampleSpacing true 9 9 true 3) 0 0 2)
        ⟨0, 0⟩ ⟨10, 0⟩ 0 2).1 = 9 / 10 ∧
    (getNextPointPosition realMath (exampleTracker (exampleSpacing true 9 9 true 3) 0 0 2)
        ⟨0, 0⟩ ⟨10, 0⟩ 0 2).1 ≠
      min (spaceFactor realMath (exampleTracker (exampleSpacing true 9 9 true 3) 0 0 2)
          ⟨0, 0⟩ ⟨10, 0⟩).1
        (getNextPointPositionTimed
          (exampleTracker (exampleSpacing true 9 9 true 3) 0 0 2 : Private ℝ) 0 2).1 := by
  have hl : QVector2D.length realMath ((⟨10, 0⟩ : QPointF ℝ).sub ⟨0, 0⟩) = 10 :=
    length_eq_of_sq _ 10 (by norm_num) (by norm_num [QPointF.sub])
  have h1 : (spaceFactor realMath (exampleTracker (exampleSpacing true 9 9 true 3) 0 0 2)
      ⟨0, 0⟩ ⟨10, 0⟩).1 = 9 / 10 := by
    simp [spaceFactor, getNextPointPositionIsotropic, hl, exampleTracker, exampleSpacing]
    norm_num
  have h2 : (getNextPointPositionTimed
      (exampleTracker (exampleSpacing true 9 9 true 3) 0 0 2 : Private ℝ) 0 2).1 = 3 / 4 := by
    simp [getNextPointPositionTimed, exampleTracker, exampleSpacing]
    norm_num
  have h3 : (getNextPointPosition realMath (exampleTracker (exampleSpacing true 9 9 true 3) 0 0 2)
      ⟨0, 0⟩ ⟨10, 0⟩ 0 2).1 = 9 / 10 := by
    simp [getNextPointPosition, spaceFactor, getNextPointPositionIsotropic,
      getNextPointPositionTimed, hl, exampleTracker, exampleSpacing, resetAccumulators]
    norm_num
  refine ⟨h1, h2, h3, ?_⟩
  rw [h1, h2, h3]
  norm_num

/-- C5, amended: when the spatial solver run on the tracker returns a factor
`ts ≥ 0`, it leaves the tracker with both accumulators reset, and
`getNextPointPosition` combines `ts` with the answer `tt` of the timed solver
run on that reset tracker: it returns `min(ts, tt)` when `tt ≥ 0` and `ts`
when `tt < 0`.  In particular, when the accumulated time is 0 before the call
and the timed solver run on the tracker itself returns `tt ≥ 0`, the result is
`min(ts, tt)`. -/
theorem earlier_wins_sequential (s : Private ℝ) (start end_ : QPointF ℝ)
    (startTime endTime : ℝ)
    (hs : 0 ≤ (spaceFactor realMath s start end_).1) :
    (spaceFactor realMath s start end_).2 = resetAccumulators s ∧
    (0 ≤ (getNextPointPositionTimed (resetAccumulators s) startTime endTime).1 →
      (getNextPointPosition realMath s start end_ startTime endTime).1 =
        min (spaceFactor realMath s start end_).1
          (getNextPointPositionTimed (resetAccumulators s) startTime endTime).1) ∧
    ((getNextPointPositionTimed (resetAccumulators s) startTime endTime).1 < 0 →
      (getNextPointPosition realMath s start end_ startTime endTime).1 =
        (spaceFactor realMath s start end_).1) ∧
    (s.accumTime = 0 → 0 ≤ (getNextPointPositionTimed s startTime endTime).1 →
      (getNextPointPosition realMath s start end_ startTime endTime).1 =
        min (spaceFactor realMath s start end_).1
          (getNextPointPositionTimed s startTime endTime).1) := by
  have hst := spaceFactor_state_of_nonneg realMath s start end_ hs
  have hge : 0 ≤ (getNextPointPositionTimed (resetAccumulators s) startTime endTime).1 →
      (getNextPointPosition realMath s start end_ startTime endTime).1 =
        min (spaceFactor realMath s start end_).1
          (getNextPointPositionTimed (resetAccumulators s) startTime endTime).1 := by
    intro ht
    rw [getNextPointPosition_eq, hst]
    simp only []
    rw [if_neg (not_lt.mpr hs), if_neg (not_lt.mpr ht)]
  refine ⟨hst, hge, ?_, ?_⟩
  · intro ht
    rw [getNextPointPosition_eq, hst]
    simp only []
    rw [if_neg (not_lt.mpr hs), if_pos ht]
  · intro h0 ht
    have hc := timed_fst_congr s (resetAccumulators s) startTime endTime rfl
      (by rw [h0]; rfl)
    rw [hc] at ht ⊢
    exact hge ht

/-- Witness of C5, amended: radius 9, no accumulated time, timed spacing every
3 time units, the segment from (0,0) to (10,0) over 10 time units: the spatial
factor is 9/10, the timed factor is 3/10, and the call returns 3/10. -/
theorem earlier_wins_sequential_witness :
    0 ≤ (spaceFactor realMath (exampleTracker (exampleSpacing true 9 9 true 3) 0 0 0)
        ⟨0, 0⟩ ⟨10, 0⟩).1 ∧
    (spaceFactor realMath (exampleTracker (exampleSpacing true 9 9 true 3) 0 0 0)
        ⟨0, 0⟩ ⟨10, 0⟩).1 = 9 / 10 ∧
    (getNextPointPositionTimed
        (exampleTracker (exampleSpacing true 9 9 true 3) 0 0 0 : Private ℝ) 0 10).1 = 3 / 10 ∧
    (getNextPointPosition realMath (exampleTracker (exampleSpacing true 9 9 true 3) 0 0 0)
        ⟨0, 0⟩ ⟨10, 0⟩ 0 10).1 = 3 / 10 := by
  have hl : QVector2D.length realMath ((⟨10, 0⟩ : QPointF ℝ).sub ⟨0, 0⟩) = 10 :=
    length_eq_of_sq _ 10 (by norm_num) (by norm_num [QPointF.sub])
  have h1 : (spaceFactor realMath (exampleTracker (exampleSpacing true 9 9 true 3) 0 0 0)
      ⟨0, 0⟩ ⟨10, 0⟩).1 = 9 / 10 := by
    simp [spaceFactor, getNextPointPositionIsotropic, hl, exampleTracker, exampleSpacing]
    norm_num
  have h2 : (getNextPointPositionTimed
      (exampleTracker (exampleSpacing true 9 9 true 3) 0 0 0 : Private ℝ) 0 10).1 = 3 / 10 := by
    simp [getNextPointPositionTimed, exampleTracker, exampleSpacing]
    norm_num
  have h := (earlier_wins_sequential (exampleTracker (exampleSpacing true 9 9 true 3) 0 0 0)
    ⟨0, 0⟩ ⟨10, 0⟩ 0 10 (by rw [h1]; norm_num)).2.2.2 rfl (by rw [h2]; norm_num)
  rw [h1, h2] at h
  refine ⟨by rw [h1]; norm_num, h1, h2, ?_⟩
  rw [h]
  norm_num

/-- C6, the claim as stated fails: radius 10, accumulated distance (1,0), no
accumulated time, timed spacing every 3 time units, the segment from (0,0) to
(10,0) over 10 time units.  The spatial solver proposes 9/10, the timed solver
proposes 3/10 (run alone on the tracker, and also inside the call), the call
returns 3/10, and afterwards the accumulated distance is (0,0), not its value
(1,0) from before the call. -/
theorem loser_accumulator_counterexample :
    (spaceFactor realMath (exampleTracker (exampleSpacing true 10 10 true 3) 1 0 0)
        ⟨0, 0⟩ ⟨10, 0⟩).1 = 9 / 10 ∧
    (getNextPointPositionTimed
        (exampleTracker (exampleSpacing true 10 10 true 3) 1 0 0 : Private ℝ) 0 10).1 = 3 / 10 ∧
    (getNextPointPosition realMath (exampleTracker (exampleSpacing true 10 10 true 3) 1 0 0)
        ⟨0, 0⟩ ⟨10, 0⟩ 0 10).1 = 3 / 10 ∧
    (getNextPointPosition realMath (exampleTracker (exampleSpacing true 10 10 true 3) 1 0 0)
        ⟨0, 0⟩ ⟨10, 0⟩ 0 10).2.accumTime = 0 ∧
    (getNextPointPosition realMath (exampleTracker (exampleSpacing true 10 10 true 3) 1 0 0)
        ⟨0, 0⟩ ⟨10, 0⟩ 0 10).2.accumDistance = ⟨0, 0⟩ ∧
    (getNextPointPosition realMath (exampleTracker (exampleSpacing true 10 10 true 3) 1 0 0)
        ⟨0, 0⟩ ⟨10, 0⟩ 0 10).2.accumDistance ≠
      (exampleTracker (exampleSpacing true 10 10 true 3) 1 0 0 : Private ℝ).accumDistance := by
  have hl : QVector2D.length realMath ((⟨10, 0⟩ : QPointF ℝ).sub ⟨0, 0⟩) = 10 :=
    length_eq_of_sq _ 10 (by norm_num) (by norm_num [QPointF.sub])
  have h1 : (spaceFactor realMath (exampleTracker (exampleSpacing true 10 10 true 3) 1 0 0)
      ⟨0, 0⟩ ⟨10, 0⟩).1 = 9 / 10 := by
    simp [spaceFactor, getNextPointPositionIsotropic, hl, exampleTracker, exampleSpacing]
    norm_num
  have h2 : (getNextPointPositionTimed
      (exampleTracker (exampleSpacing true 10 10 true 3) 1 0 0 : Private ℝ) 0 10).1 = 3 / 10 := by
    simp [getNextPointPositionTimed, exampleTracker, exampleSpacing]
    norm_num
  have h3 : getNextPointPosition realMath (exampleTracker (exampleSpacing true 10 10 true 3) 1 0 0)
      ⟨0, 0⟩ ⟨10, 0⟩ 0 10 = (3 / 10, exampleTracker (exampleSpacing true 10 10 true 3) 0 0 0) := by
    simp [getNextPointPosition, spaceFactor, getNextPointPositionIsotropic,
      getNextPointPositionTimed, hl, exampleTracker, exampleSpacing, resetAccumulators,
      QPointF.null]
    norm_num
  refine ⟨h1, h2, ?_, ?_, ?_, ?_⟩
  · rw [h3]
  · rw [h3]
    rfl
  · rw [h3]
    rfl
  · rw [h3]
    intro h
    have hx := congrArg QPointF.x h
    simp [exampleTracker] at hx

/-- C6, amended: in a call of `getNextPointPosition` where the spatial solver
proposes a dab and the timed solver, run after it in the same call, also
proposes one with a factor that is not larger, the call returns the timed
factor and both accumulators are reset: afterwards `accumTime = 0` and
`accumDistance = (0,0)`. -/
theorem both_reset_when_timed_wins (s : Private ℝ) (start end_ : QPointF ℝ)
    (startTime endTime : ℝ)
    (hs : 0 ≤ (spaceFactor realMath s start end_).1)
    (ht : 0 ≤ (getNextPointPositionTimed (spaceFactor realMath s start end_).2
      startTime endTime).1)
    (hle : (getNextPointPositionTimed (spaceFactor realMath s start end_).2
      startTime endTime).1 ≤ (spaceFactor realMath s start end_).1) :
    (getNextPointPosition realMath s start end_ startTime endTime).1 =
      (getNextPointPositionTimed (spaceFactor realMath s start end_).2 startTime endTime).1 ∧
    (getNextPointPosition realMath s start end_ startTime endTime).2.accumTime = 0 ∧
    (getNextPointPosition realMath s start end_ startTime endTime).2.accumDistance = ⟨0, 0⟩ := by
  have hst := timed_state_of_nonneg _ startTime endTime ht
  rw [getNextPointPosition_eq]
  simp only []
  rw [if_neg (not_lt.mpr hs), if_neg (not_lt.mpr ht), hst]
  exact ⟨min_eq_right hle, rfl, rfl⟩

/-- Witness of C6, amended: the input of the counterexample; the call returns
the timed factor 3/10 and leaves both accumulators at zero. -/
theorem both_reset_when_timed_wins_witness :
    (getNextPointPositionTimed
        (spaceFactor realMath (exampleTracker (exampleSpacing true 10 10 true 3) 1 0 0)
          ⟨0, 0⟩ ⟨10, 0⟩).2 0 10).1 = 3 / 10 ∧
    (getNextPointPosition realMath (exampleTracker (exampleSpacing true 10 10 true 3) 1 0 0)
        ⟨0, 0⟩ ⟨10, 0⟩ 0 10).1 = 3 / 10 ∧
    (getNextPointPosition realMath (exampleTracker (exampleSpacing true 10 10 true 3) 1 0 0)
        ⟨0, 0⟩ ⟨10, 0⟩ 0 10).2.accumTime = 0 ∧
    (getNextPointPosition realMath (exampleTracker (exampleSpacing true 10 10 true 3) 1 0 0)
        ⟨0, 0⟩ ⟨10, 0⟩ 0 10).2.accumDistance = ⟨0, 0⟩ := by
  have hl : QVector2D.length realMath ((⟨10, 0⟩ : QPointF ℝ).sub ⟨0, 0⟩) = 10 :=
    length_eq_of_sq _ 10 (by norm_num) (by norm_num [QPointF.sub])
  have h1 : spaceFactor realMath (exampleTracker (exampleSpacing true 10 10 true 3) 1 0 0)
      ⟨0, 0⟩ ⟨10, 0⟩ = (9 / 10, exampleTracker (exampleSpacing true 10 10 true 3) 0 0 0) := by
    simp [spaceFactor, getNextPointPositionIsotropic, hl, exampleTracker, exampleSpacing,
      resetAccumulators, QPointF.null]
    norm_num
  have h2 : (getNextPointPositionTimed
      (exampleTracker (exampleSpacing true 10 10 true 3) 0 0 0 : Private ℝ) 0 10).1 = 3 / 10 := by
    simp [getNextPointPositionTimed, exampleTracker, exampleSpacing]
    norm_num
  have h := both_reset_when_timed_wins (exampleTracker (exampleSpacing true 10 10 true 3) 1 0 0)
    ⟨0, 0⟩ ⟨10, 0⟩ 0 10 (by rw [h1]; norm_num) (by rw [h1, h2]; norm_num)
    (by rw [h1, h2]; norm_num)
  rw [h1] at h ⊢
  rw [h2] at h
  exact ⟨h2, h.1, h.2.1, h.2.2⟩

/-- C7, the claim as stated fails: radius 10, both accumulators zero, timed
spacing every 100 time units, the segment from (0,0) to (15,0) over one time
unit.  The call returns the solution 2/3 and leaves the accumulated distance
at (0,0), but the accumulated time afterwards is 1, not 0. -/
theorem reset_together_counterexample :
    (getNextPointPosition realMath (exampleTracker (exampleSpacing true 10 10 true 100) 0 0 0)
        ⟨0, 0⟩ ⟨15, 0⟩ 0 1).1 = 2 / 3 ∧
    (getNextPointPosition realMath (exampleTracker (exampleSpacing true 10 10 true 100) 0 0 0)
        ⟨0, 0⟩ ⟨15, 0⟩ 0 1).2.accumDistance = ⟨0, 0⟩ ∧
    (getNextPointPosition realMath (exampleTracker (exampleSpacing true 10 10 true 100) 0 0 0)
        ⟨0, 0⟩ ⟨15, 0⟩ 0 1).2.accumTime = 1 ∧
    (getNextPointPosition realMath (exampleTracker (exampleSpacing true 10 10 true 100) 0 0 0)
        ⟨0, 0⟩ ⟨15, 0⟩ 0 1).2.accumTime ≠ 0 := by
  have hl : QVector2D.length realMath ((⟨15, 0⟩ : QPointF ℝ).sub ⟨0, 0⟩) = 15 :=
    length_eq_of_sq _ 15 (by norm_num) (by norm_num [QPointF.sub])
  have h : getNextPointPosition realMath
      (exampleTracker (exampleSpacing true 10 10 true 100) 0 0 0) ⟨0, 0⟩ ⟨15, 0⟩ 0 1 =
      (2 / 3, exampleTracker (exampleSpacing true 10 10 true 100) 0 0 1) := by
    simp [getNextPointPosition, spaceFactor, getNextPointPositionIsotropic,
      getNextPointPositionTimed, hl, exampleTracker, exampleSpacing, resetAccumulators,
      QPointF.null]
    norm_num
  rw [h]
  exact ⟨rfl, rfl, rfl, by norm_num [exampleTracker]⟩

/-- C7, amended: whenever `getNextPointPosition` returns a solution `t ≥ 0`,
the accumulated distance is (0,0) afterwards; and the accumulated time is 0
afterwards as well whenever the timed solver proposed a dab in that call, or
was inactive in it (the start time not before the end time, or timed spacing
disabled). -/
theorem reset_after_solution (s : Private ℝ) (start end_ : QPointF ℝ)
    (startTime endTime : ℝ)
    (h : 0 ≤ (getNextPointPosition realMath s start end_ startTime endTime).1) :
    (getNextPointPosition realMath s start end_ startTime endTime).2.accumDistance = ⟨0, 0⟩ ∧
    ((0 ≤ (getNextPointPositionTimed (spaceFactor realMath s start end_).2
          startTime endTime).1 ∨
        ¬ (startTime < endTime) ∨ s.spacing.isTimedSpacingEnabled = false) →
      (getNextPointPosition realMath s start end_ startTime endTime).2.accumTime = 0) := by
  rw [getNextPointPosition_eq] at h ⊢
  simp only [] at h ⊢
  by_cases hs : (spaceFactor realMath s start end_).1 < 0
  · rw [if_pos hs] at h
    rw [timed_state_of_nonneg _ _ _ h]
    exact ⟨rfl, fun _ => rfl⟩
  · have hst := spaceFactor_state_of_nonneg realMath s start end_ (not_lt.mp hs)
    refine ⟨?_, ?_⟩
    · rw [hst]
      simp only [getNextPointPositionTimed, resetAccumulators]
      split_ifs <;> rfl
    · rintro (ht | ht)
      · rw [timed_state_of_nonneg _ _ _ ht, hst]
        rfl
      · rw [hst, timed_inactive _ _ _ (by simpa [resetAccumulators] using ht)]
        rfl

/-- Witness of C7, amended: radius 10, accumulated distance (4,0), accumulated
time 2, timed spacing every 5 time units, the segment from (0,0) to (15,0)
over 10 time units: the call returns 2/5 and leaves both accumulators at
zero. -/
theorem reset_after_solution_witness :
    (getNextPointPosition realMath (exampleTracker (exampleSpacing true 10 10 true 5) 4 0 2)
        ⟨0, 0⟩ ⟨15, 0⟩ 0 10).1 = 2 / 5 ∧
    (getNextPointPosition realMath (exampleTracker (exampleSpacing true 10 10 true 5) 4 0 2)
        ⟨0, 0⟩ ⟨15, 0⟩ 0 10).2.accumDistance = ⟨0, 0⟩ ∧
    (getNextPointPosition realMath (exampleTracker (exampleSpacing true 10 10 true 5) 4 0 2)
        ⟨0, 0⟩ ⟨15, 0⟩ 0 10).2.accumTime = 0 := by
  have hl : QVector2D.length realMath ((⟨15, 0⟩ : QPointF ℝ).sub ⟨0, 0⟩) = 15 :=
    length_eq_of_sq _ 15 (by norm_num) (by norm_num [QPointF.sub])
  have h1 : (getNextPointPosition realMath
      (exampleTracker (exampleSpacing true 10 10 true 5) 4 0 2) ⟨0, 0⟩ ⟨15, 0⟩ 0 10).1 = 2 / 5 := by
    simp [getNextPointPosition, spaceFactor, getNextPointPositionIsotropic,
      getNextPointPositionTimed, hl, exampleTracker, exampleSpacing, resetAccumulators,
      QPointF.null]
    norm_num
  have h2 : (getNextPointPositionTimed
      (spaceFactor realMath (exampleTracker (exampleSpacing true 10 10 true 5) 4 0 2)
        ⟨0, 0⟩ ⟨15, 0⟩).2 0 10).1 = 1 / 2 := by
    simp [spaceFactor, getNextPointPositionIsotropic, getNextPointPositionTimed, hl,
      exampleTracker, exampleSpacing, resetAccumulators, QPointF.null]
    norm_num
  have h := reset_after_solution (exampleTracker (exampleSpacing true 10 10 true 5) 4 0 2)
    ⟨0, 0⟩ ⟨15, 0⟩ 0 10 (by rw [h1]; norm_num)
  exact ⟨h1, h.1, h.2 (Or.inl (by rw [h2]; norm_num))⟩

/-- C8, the claim as stated fails: a tracker seeded at (0,0) on which the
single dab at (3,4) is registered reports the total distance 5, while the sum
of the distances between consecutive registered positions, of which there is
only one, is 0. -/
theorem exact_length_counterexample :
    scalarDistanceApprox
        (registerAll realMath (fun _ _ => 0)
          (createSeeded (exampleTracker (exampleSpacing true 10 10 false 0) 0 0 0) ⟨0, 0⟩ 0)
          [(⟨⟨3, 4⟩, 1, 0⟩, exampleSpacing true 10 10 false 0)]) = 5 ∧
    pathLength realMath [(⟨3, 4⟩ : QPointF ℝ)] = 0 ∧
    scalarDistanceApprox
        (registerAll realMath (fun _ _ => 0)
          (createSeeded (exampleTracker (exampleSpacing true 10 10 false 0) 0 0 0) ⟨0, 0⟩ 0)
          [(⟨⟨3, 4⟩, 1, 0⟩, exampleSpacing true 10 10 false 0)]) ≠
      pathLength realMath
        ([(⟨⟨3, 4⟩, 1, 0⟩, exampleSpacing true 10 10 false 0)].map
          (fun c : KisPaintInformation ℝ × KisSpacingInformation ℝ => c.1.pos)) := by
  have h5 : Real.sqrt ((3 : ℝ) * 3 + 4 * 4) = 5 := by
    rw [show ((3 : ℝ) * 3 + 4 * 4) = 5 * 5 by norm_num]
    exact Real.sqrt_mul_self (by norm_num)
  have h : scalarDistanceApprox
      (registerAll realMath (fun _ _ => 0)
        (createSeeded (exampleTracker (exampleSpacing true 10 10 false 0) 0 0 0) ⟨0, 0⟩ 0)
        [(⟨⟨3, 4⟩, 1, 0⟩, exampleSpacing true 10 10 false 0)]) = 5 := by
    simp [scalarDistanceApprox, registerAll, registerPaintedDab, createSeeded, Private.init,
      KisAlgebra2D.norm, pow2, QPointF.sub, realMath, h5]
  refine ⟨h, rfl, ?_⟩
  rw [h]
  simp [pathLength]

/-- C8, amended: for every tracker newly constructed with a seed position `p0`
and every sequence of `registerPaintedDab` calls with dab positions `p1 .. pn`,
`scalarDistanceApprox()` afterwards equals the exact sum of the Euclidean
distances between consecutive positions of `p0, p1, .., pn`: the distance from
the seed to the first dab is part of it. -/
theorem exact_length_seeded (angle : KisPaintInformation ℝ → Private ℝ → ℝ)
    (u : Private ℝ) (p0 : QPointF ℝ) (t0 : ℝ)
    (dabs : List (KisPaintInformation ℝ × KisSpacingInformation ℝ)) :
    scalarDistanceApprox (registerAll realMath angle (createSeeded u p0 t0) dabs) =
      pathLength realMath (p0 :: dabs.map (fun c => c.1.pos)) := by
  rw [scalarDistanceApprox, registerAll_totalDistance]
  simp [createSeeded, Private.init]

/-- C9: the total distance is monotone.  Along every sequence of
`registerPaintedDab`, `getNextPointPosition`, `overrideLastValues` and
`setLockedDrawingAngle` calls `scalarDistanceApprox()` never decreases, neither
over a single call nor over the whole sequence nor between any two points of
it; `getNextPointPosition`, `overrideLastValues` and `setLockedDrawingAngle`
leave it exactly unchanged, and `registerPaintedDab` adds the Euclidean
distance between the previous last position and the position of the new
dab. -/
theorem totalDistance_monotone (angle : KisPaintInformation ℝ → Private ℝ → ℝ)
    (d : Private ℝ) :
    (∀ c : Call ℝ, scalarDistanceApprox d ≤ scalarDistanceApprox (Call.run realMath angle d c)) ∧
    (∀ cs : List (Call ℝ),
      scalarDistanceApprox d ≤ scalarDistanceApprox (runAll realMath angle d cs)) ∧
    (∀ cs1 cs2 : List (Call ℝ),
      scalarDistanceApprox (runAll realMath angle d cs1) ≤
        scalarDistanceApprox (runAll realMath angle d (cs1 ++ cs2))) ∧
    (∀ (start end_ : QPointF ℝ) (startTime endTime : ℝ),
      scalarDistanceApprox (getNextPointPosition realMath d start end_ startTime endTime).2 =
        scalarDistanceApprox d) ∧
    (∀ (lastPosition : QPointF ℝ) (lastTime : ℝ),
      scalarDistanceApprox (overrideLastValues d lastPosition lastTime) =
        scalarDistanceApprox d) ∧
    (∀ angle0 : ℝ,
      scalarDistanceApprox (setLockedDrawingAngle d angle0) = scalarDistanceApprox d) ∧
    (∀ (info : KisPaintInformation ℝ) (spacing : KisSpacingInformation ℝ),
      scalarDistanceApprox (registerPaintedDab realMath angle d info spacing) =
        scalarDistanceApprox d +
          Real.sqrt ((info.pos.x - d.lastPosition.x) ^ 2 + (info.pos.y - d.lastPosition.y) ^ 2)) := by
  refine ⟨fun c => run_totalDistance_le angle d c, fun cs => runAll_totalDistance_le angle cs d,
    ?_, ?_, fun _ _ => rfl, fun _ => rfl, ?_⟩
  · intro cs1 cs2
    rw [runAll_append]
    exact runAll_totalDistance_le angle cs2 _
  · intro start end_ startTime endTime
    exact getNextPointPosition_totalDistance realMath d start end_ startTime endTime
  · intro info spacing
    exact registerPaintedDab_totalDistance angle d info spacing

/-- C10, the claim as stated fails: equal radii 5, no rotation, no flip,
accumulated distance (3,0), the segment from (0,0) to (0,4).  The anisotropic
solver returns 1 (the offset (3,0) moved by the whole segment lies on the
circle of radius 5), the isotropic solver returns 1/2 (it needs 5 - 3 = 2 of
the length 4). -/
theorem anisotropic_circle_counterexample :
    (exampleTracker (exampleSpacing false 5 5 false 0) 3 0 0 : Private ℝ).spacing.spacing.x =
      (exampleTracker (exampleSpacing false 5 5 false 0) 3 0 0 : Private ℝ).spacing.spacing.y ∧
    (exampleTracker (exampleSpacing false 5 5 false 0) 3 0 0 : Private ℝ).spacing.rotation = 0 ∧
    (exampleTracker (exampleSpacing false 5 5 false 0) 3 0 0 :
      Private ℝ).spacing.coordinateSystemFlipped = false ∧
    (getNextPointPositionAnisotropic realMath
        (exampleTracker (exampleSpacing false 5 5 false 0) 3 0 0) ⟨0, 0⟩ ⟨0, 4⟩).1 = 1 ∧
    (getNextPointPositionIsotropic realMath
        (exampleTracker (exampleSpacing false 5 5 false 0) 3 0 0) ⟨0, 0⟩ ⟨0, 4⟩).1 = 1 / 2 ∧
    (getNextPointPositionAnisotropic realMath
        (exampleTracker (exampleSpacing false 5 5 false 0) 3 0 0) ⟨0, 0⟩ ⟨0, 4⟩).1 ≠
      (getNextPointPositionIsotropic realMath
        (exampleTracker (exampleSpacing false 5 5 false 0) 3 0 0) ⟨0, 0⟩ ⟨0, 4⟩).1 := by
  have h256 : Real.sqrt 256 = 16 := by
    rw [show (256 : ℝ) = 16 * 16 by norm_num]
    exact Real.sqrt_mul_self (by norm_num)
  have h625 : Real.sqrt 625 = 25 := by
    rw [show (625 : ℝ) = 25 * 25 by norm_num]
    exact Real.sqrt_mul_self (by norm_num)
  have hl : QVector2D.length realMath ((⟨0, 4⟩ : QPointF ℝ).sub ⟨0, 0⟩) = 4 :=
    length_eq_of_sq _ 4 (by norm_num) (by norm_num [QPointF.sub])
  have h1 : (getNextPointPositionAnisotropic realMath
      (exampleTracker (exampleSpacing false 5 5 false 0) 3 0 0) ⟨0, 0⟩ ⟨0, 4⟩).1 = 1 := by
    simp [getNextPointPositionAnisotropic, exampleTracker, exampleSpacing, pow2, QPointF.sub,
      realMath]
    norm_num [h256, h625]
  have h2 : (getNextPointPositionIsotropic realMath
      (exampleTracker (exampleSpacing false 5 5 false 0) 3 0 0) ⟨0, 0⟩ ⟨0, 4⟩).1 = 1 / 2 := by
    simp [getNextPointPositionIsotropic, hl, exampleTracker, exampleSpacing]
    norm_num
  refine ⟨rfl, rfl, rfl, h1, h2, ?_⟩
  rw [h1, h2]
  norm_num

/-- C10, amended: when `spacing.x = spacing.y`, the rotation is 0, the
coordinate system is not flipped and the accumulated distance is zero, then for
every segment with `start` different from `end_`, of length `L`,
`getNextPointPositionAnisotropic` returns the same factor as
`getNextPointPositionIsotropic`: both return `a / L` when `a ≤ L` and -1
otherwise, where `a = max(0.5, spacing.x)`. -/
theorem anisotropic_circle_from_zero (s : Private ℝ) (start end_ : QPointF ℝ) (a L : ℝ)
    (ha : a = max 0.5 s.spacing.spacing.x)
    (hab : s.spacing.spacing.x = s.spacing.spacing.y)
    (hrot : s.spacing.rotation = 0) (hflip : s.spacing.coordinateSystemFlipped = false)
    (hzero : s.accumDistance = ⟨0, 0⟩)
    (hL : L = Real.sqrt ((end_.x - start.x) ^ 2 + (end_.y - start.y) ^ 2))
    (hne : ¬ (start.x = end_.x ∧ start.y = end_.y)) :
    (getNextPointPositionAnisotropic realMath s start end_).1 =
      (getNextPointPositionIsotropic realMath s start end_).1 ∧
    (a ≤ L →
      (getNextPointPositionAnisotropic realMath s start end_).1 = a / L ∧
      (getNextPointPositionIsotropic realMath s start end_).1 = a / L) ∧
    (¬ (a ≤ L) →
      (getNextPointPositionAnisotropic realMath s start end_).1 = -1 ∧
      (getNextPointPositionIsotropic realMath s start end_).1 = -1) := by
  have hx : s.accumDistance.x = 0 := by rw [hzero]
  have han := anisotropic_circle_zero s start end_ a L ha hab hrot hflip hzero hL hne
  have hlen : QVector2D.length realMath (end_.sub start) = L := by
    rw [length_real, hL]
    simp only [QPointF.sub, sq]
  have hiso : getNextPointPositionIsotropic realMath s start end_ =
      if a ≤ L then (a / L, resetAccumulators s)
      else (-1, { s with accumDistance := ⟨s.accumDistance.x + L, s.accumDistance.y⟩ }) := by
    simp only [getNextPointPositionIsotropic, hlen, ← ha, hx, sub_zero, if_neg hne]
  rw [han, hiso]
  by_cases h : a ≤ L
  · rw [if_pos h, if_pos h]
    exact ⟨rfl, fun _ => ⟨rfl, rfl⟩, fun hc => absurd h hc⟩
  · rw [if_neg h, if_neg h]
    exact ⟨rfl, fun hc => absurd hc h, fun _ => ⟨rfl, rfl⟩⟩

/-- Witness of C10, amended: equal radii 10, zero accumulated distance, the
segment from (0,0) to (9,12) of length 15: both solvers return 10/15. -/
theorem anisotropic_circle_from_zero_witness :
    ¬ ((⟨0, 0⟩ : QPointF ℝ).x = (⟨9, 12⟩ : QPointF ℝ).x ∧
        (⟨0, 0⟩ : QPointF ℝ).y = (⟨9, 12⟩ : QPointF ℝ).y) ∧
    (getNextPointPositionAnisotropic realMath
        (exampleTracker (exampleSpacing false 10 10 false 0) 0 0 0) ⟨0, 0⟩ ⟨9, 12⟩).1 =
      (10 : ℝ) / 15 ∧
    (getNextPointPositionIsotropic realMath
        (exampleTracker (exampleSpacing false 10 10 false 0) 0 0 0) ⟨0, 0⟩ ⟨9, 12⟩).1 =
      (10 : ℝ) / 15 :=
  ⟨by norm_num,
    (anisotropic_circle_from_zero (exampleTracker (exampleSpacing false 10 10 false 0) 0 0 0)
      ⟨0, 0⟩ ⟨9, 12⟩ 10 15
      (by norm_num [exampleTracker, exampleSpacing])
      rfl rfl rfl rfl
      (by
        rw [show (((9 : ℝ) - 0) ^ 2 + ((12 : ℝ) - 0) ^ 2) = 15 * 15 by norm_num]
        exact (Real.sqrt_mul_self (by norm_num)).symm)
      (by norm_num)).2.1 (by norm_num)⟩

/-- C11: idempotent none.  For every tracker and every point `p`, the
isotropic and the anisotropic solver asked about the zero-length segment from
`p` to `p` both return -1 and leave the whole tracker unchanged, so any number
of such queries in a row returns -1 every time and ends in the same tracker. -/
theorem zero_length_idempotent (s : Private ℝ) (p : QPointF ℝ) :
    getNextPointPositionIsotropic realMath s p p = (-1, s) ∧
    getNextPointPositionAnisotropic realMath s p p = (-1, s) ∧
    (∀ n : Nat, repeatCall (fun d => getNextPointPositionIsotropic realMath d p p) n s =
      (List.replicate n (-1), s)) ∧
    (∀ n : Nat, repeatCall (fun d => getNextPointPositionAnisotropic realMath d p p) n s =
      (List.replicate n (-1), s)) := by
  have hi : ∀ d : Private ℝ, getNextPointPositionIsotropic realMath d p p = (-1, d) := by
    intro d
    simp [getNextPointPositionIsotropic]
  have ha : ∀ d : Private ℝ, getNextPointPositionAnisotropic realMath d p p = (-1, d) := by
    intro d
    simp [getNextPointPositionAnisotropic]
  exact ⟨hi s, ha s, fun n => repeatCall_fixed _ (-1) s (hi s) n,
    fun n => repeatCall_fixed _ (-1) s (ha s) n⟩

/-- C12, the claim as stated fails: a tracker that has painted (its
`hasLastPaintInformation()` is true) with last position (4,6), copied for level
of detail 1 with a transform that halves the coordinates.  The assertion raises
its diagnostic and the copy goes on to rescale: its last position is (2,3), not
the source's (4,6). -/
theorem lod_copy_counterexample :
    ({ exampleTracker (exampleSpacing true 10 10 false 0) 0 0 0 with
        lastPaintInfoValid := true, lastPosition := ⟨4, 6⟩ } : Private ℝ).lastPaintInfoValid
      = true ∧
    (createLod exampleLodMap
        ({ exampleTracker (exampleSpacing true 10 10 false 0) 0 0 0 with
          lastPaintInfoValid := true, lastPosition := ⟨4, 6⟩ } : Private ℝ) 1).2 = true ∧
    (createLod exampleLodMap
        ({ exampleTracker (exampleSpacing true 10 10 false 0) 0 0 0 with
          lastPaintInfoValid := true, lastPosition := ⟨4, 6⟩ } : Private ℝ) 1).1.lastPosition
      = ⟨2, 3⟩ ∧
    (createLod exampleLodMap
        ({ exampleTracker (exampleSpacing true 10 10 false 0) 0 0 0 with
          lastPaintInfoValid := true, lastPosition := ⟨4, 6⟩ } : Private ℝ) 1).1.lastPosition
      ≠ ({ exampleTracker (exampleSpacing true 10 10 false 0) 0 0 0 with
          lastPaintInfoValid := true, lastPosition := ⟨4, 6⟩ } : Private ℝ).lastPosition := by
  have h : (createLod exampleLodMap
      ({ exampleTracker (exampleSpacing true 10 10 false 0) 0 0 0 with
        lastPaintInfoValid := true, lastPosition := ⟨4, 6⟩ } : Private ℝ) 1).1.lastPosition
      = ⟨2, 3⟩ := by
    simp [createLod, exampleLodMap, exampleTracker]
    norm_num
  refine ⟨rfl, rfl, h, ?_⟩
  rw [h]
  intro hc
  have hx := congrArg QPointF.x hc
  norm_num [exampleTracker] at hx

/-- C12, amended: constructing a level-of-detail copy always proceeds with the
deep copy and with the rescaling.  Whether or not the source has painted, the
copy equals the source in every field except `lastPosition`, which is the LOD
transform's map of the source's `lastPosition`; the assertion raises its
diagnostic exactly when the source's `hasLastPaintInformation()` is true. -/
theorem lod_copy_always_rescales (lodMap : Int → QPointF ℝ → QPointF ℝ) (rhs : Private ℝ)
    (levelOfDetail : Int) :
    (createLod lodMap rhs levelOfDetail).1 =
      { rhs with lastPosition := lodMap levelOfDetail rhs.lastPosition } ∧
    (createLod lodMap rhs levelOfDetail).2 = rhs.lastPaintInfoValid := by
  refine ⟨rfl, ?_⟩
  simp [createLod, KIS_ASSERT_RECOVER_NOOP]

/-- C13: the postcondition of `registerPaintedDab`.  For every tracker, paint
sample and spacing configuration, after `registerPaintedDab(info, spacing)` the
tracker has `lastPosition = info.pos()`, `lastTime = info.currentTime()`, both
validity flags true, `lastPaintInformation = info` and the new spacing as
current spacing, while `accumDistance`, `accumTime` and the locked drawing
angle (value and flag) are unchanged. -/
theorem registerPaintedDab_postcondition (angle : KisPaintInformation ℝ → Private ℝ → ℝ)
    (d : Private ℝ) (info : KisPaintInformation ℝ) (spacing : KisSpacingInformation ℝ) :
    (registerPaintedDab realMath angle d info spacing).lastPosition = info.pos ∧
    (registerPaintedDab realMath angle d info spacing).lastTime = info.currentTime ∧
    (registerPaintedDab realMath angle d info spacing).lastDabInfoValid = true ∧
    (registerPaintedDab realMath angle d info spacing).lastPaintInfoValid = true ∧
    (registerPaintedDab realMath angle d info spacing).lastPaintInformation = info ∧
    (registerPaintedDab realMath angle d info spacing).spacing = spacing ∧
    (registerPaintedDab realMath angle d info spacing).accumDistance = d.accumDistance ∧
    (registerPaintedDab realMath angle d info spacing).accumTime = d.accumTime ∧
    (registerPaintedDab realMath angle d info spacing).lockedDrawingAngle =
      d.lockedDrawingAngle ∧
    (registerPaintedDab realMath angle d info spacing).hasLockedDrawingAngle =
      d.hasLockedDrawingAngle :=
  ⟨rfl, rfl, rfl, rfl, rfl, rfl, rfl, rfl, rfl, rfl⟩

/-- C14: seeded construction.  For every position `p` and time `t`, the
tracker constructed from them has `hasLastDabInformation()` true, last position
`p`, last time `t`, `hasLastPaintInformation()` false, zero accumulated
distance, zero accumulated time, zero total distance and no locked drawing
angle.  The default-constructed tracker has `hasLastDabInformation()` false and
the same values of all these other members: the seeded tracker is the default
one with the last position, the last time and the flag set. -/
theorem seeded_construction (u : Private ℝ) (p : QPointF ℝ) (t : ℝ) :
    ((createSeeded u p t).lastDabInfoValid = true ∧
      (createSeeded u p t).lastPosition = p ∧
      (createSeeded u p t).lastTime = t ∧
      (createSeeded u p t).lastPaintInfoValid = false ∧
      (createSeeded u p t).accumDistance = ⟨0, 0⟩ ∧
      (createSeeded u p t).accumTime = 0 ∧
      scalarDistanceApprox (createSeeded u p t) = 0 ∧
      (createSeeded u p t).hasLockedDrawingAngle = false) ∧
    ((create u).lastDabInfoValid = false ∧
      (create u).lastPaintInfoValid = false ∧
      (create u).accumDistance = ⟨0, 0⟩ ∧
      (create u).accumTime = 0 ∧
      scalarDistanceApprox (create u) = 0 ∧
      (create u).hasLockedDrawingAngle = false) ∧
    createSeeded u p t =
      { create u with lastPosition := p, lastTime := t, lastDabInfoValid := true } :=
  ⟨⟨rfl, rfl, rfl, rfl, rfl, rfl, rfl, rfl⟩, ⟨rfl, rfl, rfl, rfl, rfl, rfl⟩, rfl⟩

/-- C15: combination with one silent trigger.  On every tracker whose
accumulated time is not negative and whose `accumDistance.x` does not exceed
the effective radius `max(0.5, spacing.x)`: if the spatial solver run alone on
the tracker returns -1, `getNextPointPosition` returns exactly what the timed
solver run alone on the tracker returns; and if the timed solver run alone
returns -1, `getNextPointPosition` returns exactly what the spatial solver run
alone returns. -/
theorem silent_trigger (s : Private ℝ) (start end_ : QPointF ℝ) (startTime endTime : ℝ)
    (hacc : 0 ≤ s.accumTime)
    (hd : s.accumDistance.x ≤ max 0.5 s.spacing.spacing.x) :
    ((spaceFactor realMath s start end_).1 = -1 →
      (getNextPointPosition realMath s start end_ startTime endTime).1 =
        (getNextPointPositionTimed s startTime endTime).1) ∧
    ((getNextPointPositionTimed s startTime endTime).1 = -1 →
      (getNextPointPosition realMath s start end_ startTime endTime).1 =
        (spaceFactor realMath s start end_).1) := by
  refine ⟨?_, ?_⟩
  · intro h
    have hneg : (spaceFactor realMath s start end_).1 < 0 := by rw [h]; norm_num
    have hk := spaceFactor_of_neg s start end_ hd hneg
    rw [getNextPointPosition_eq]
    simp only []
    rw [if_pos hneg]
    exact timed_fst_congr _ _ _ _ (spaceFactor_spacing _ _ _ _) hk.2
  · intro h
    rw [getNextPointPosition_eq]
    simp only []
    by_cases hneg : (spaceFactor realMath s start end_).1 < 0
    · have hk := spaceFactor_of_neg s start end_ hd hneg
      rw [if_pos hneg, hk.1,
        timed_fst_congr _ s startTime endTime (spaceFactor_spacing _ _ _ _) hk.2]
      exact h
    · have hst := spaceFactor_state_of_nonneg realMath s start end_ (not_lt.mp hneg)
      rw [if_neg hneg, hst, if_pos (timed_after_reset_neg s startTime endTime hacc h)]

/-- Witness of C15: radius 10, accumulated distance (4,0), accumulated time 2,
timed spacing every 3 time units, the unit segment from (0,0) to (1,0) over one
time unit: the spatial solver alone returns -1, the timed solver alone returns
1, and so does the call. -/
theorem silent_trigger_witness :
    ((0 : ℝ) ≤ (exampleTracker (exampleSpacing true 10 10 true 3) 4 0 2 : Private ℝ).accumTime ∧
      (spaceFactor realMath (exampleTracker (exampleSpacing true 10 10 true 3) 4 0 2)
        ⟨0, 0⟩ ⟨1, 0⟩).1 = -1) ∧
    (getNextPointPositionTimed
        (exampleTracker (exampleSpacing true 10 10 true 3) 4 0 2 : Private ℝ) 0 1).1 = 1 ∧
    (getNextPointPosition realMath (exampleTracker (exampleSpacing true 10 10 true 3) 4 0 2)
        ⟨0, 0⟩ ⟨1, 0⟩ 0 1).1 = 1 := by
  have h1 : (spaceFactor realMath (exampleTracker (exampleSpacing true 10 10 true 3) 4 0 2)
      ⟨0, 0⟩ ⟨1, 0⟩).1 = -1 := by
    simp [spaceFactor, getNextPointPositionIsotropic, exampleTracker, exampleSpacing,
      QVector2D.length, realMath, QPointF.sub]
    norm_num
  have h2 : (getNextPointPositionTimed
      (exampleTracker (exampleSpacing true 10 10 true 3) 4 0 2 : Private ℝ) 0 1).1 = 1 := by
    simp [getNextPointPositionTimed, exampleTracker, exampleSpacing]
    norm_num
  have h := (silent_trigger (exampleTracker (exampleSpacing true 10 10 true 3) 4 0 2)
    ⟨0, 0⟩ ⟨1, 0⟩ 0 1 (by norm_num [exampleTracker])
    (by norm_num [exampleTracker, exampleSpacing])).1 h1
  rw [h2] at h
  exact ⟨⟨by norm_num [exampleTracker], h1⟩, h2, h⟩

/-- C16: the elliptical step law and its degenerate case.  With
`a = max(0.5, spacing.x)`, `b = max(0.5, spacing.y)`, accumulated offset
`(x, y)`, absolute rotated segment delta `(dx, dy)`,
`alpha = (dx/a)^2 + (dy/b)^2`, `beta = x*dx/a^2 + y*dy/b^2`,
`gamma = (x/a)^2 + (y/b)^2 - 1`, `D = beta^2 - alpha*gamma` and
`k = (-beta + sqrt D) / alpha`, `getNextPointPositionAnisotropic` on a segment
with `start` different from `end_`: returns -1 and leaves the tracker unchanged
when `D < 0`; returns `k` and resets both accumulators when `D ≥ 0` and
`0 ≤ k ≤ 1`; and otherwise returns -1 and adds `(dx, dy)` to `accumDistance`,
changing nothing else. -/
theorem elliptical_step_law (s : Private ℝ) (start end_ : QPointF ℝ)
    (a b x y dx dy alpha beta gamma D k : ℝ)
    (ha : a = max 0.5 s.spacing.spacing.x) (hb : b = max 0.5 s.spacing.spacing.y)
    (hx : x = s.accumDistance.x) (hy : y = s.accumDistance.y)
    (hdx : dx = |(rotatedDiff realMath s start end_).x|)
    (hdy : dy = |(rotatedDiff realMath s start end_).y|)
    (halpha : alpha = (dx / a) ^ 2 + (dy / b) ^ 2)
    (hbeta : beta = x * dx / a ^ 2 + y * dy / b ^ 2)
    (hgamma : gamma = (x / a) ^ 2 + (y / b) ^ 2 - 1)
    (hD : D = beta ^ 2 - alpha * gamma)
    (hk : k = (-beta + Real.sqrt D) / alpha)
    (hne : ¬ (start.x = end_.x ∧ start.y = end_.y)) :
    (D < 0 → getNextPointPositionAnisotropic realMath s start end_ = (-1, s)) ∧
    (0 ≤ D → 0 ≤ k ∧ k ≤ 1 →
      getNextPointPositionAnisotropic realMath s start end_ =
        (k, { s with accumDistance := ⟨0, 0⟩, accumTime := 0 })) ∧
    (0 ≤ D → ¬ (0 ≤ k ∧ k ≤ 1) →
      getNextPointPositionAnisotropic realMath s start end_ =
        (-1, { s with accumDistance := ⟨x + dx, y + dy⟩ })) := by
  have h := anisotropic_cases s start end_ a b x y dx dy alpha beta gamma D
    ha hb hx hy hdx hdy halpha hbeta hgamma hD hne
  rw [← hk] at h
  refine ⟨?_, ?_, ?_⟩
  · intro hneg
    rw [h, if_neg (not_le.mpr hneg)]
  · intro hpos hin
    rw [h, if_pos hpos, if_pos hin]
    rfl
  · intro hpos hout
    rw [h, if_pos hpos, if_neg hout]

/-- Witness of C16: radii 2 and 1, no rotation, zero accumulated distance, the
segment from (0,0) to (0,2): `alpha = 4`, `beta = 0`, `gamma = -1`, `D = 4`,
`k = 1/2`, and the solver returns 1/2 and resets both accumulators. -/
theorem elliptical_step_law_witness :
    ¬ ((⟨0, 0⟩ : QPointF ℝ).x = (⟨0, 2⟩ : QPointF ℝ).x ∧
        (⟨0, 0⟩ : QPointF ℝ).y = (⟨0, 2⟩ : QPointF ℝ).y) ∧
    getNextPointPositionAnisotropic realMath
        (exampleTracker (exampleSpacing false 2 1 false 0) 0 0 0) ⟨0, 0⟩ ⟨0, 2⟩ =
      ((1 : ℝ) / 2,
        { (exampleTracker (exampleSpacing false 2 1 false 0) 0 0 0 : Private ℝ) with
          accumDistance := ⟨0, 0⟩, accumTime := 0 }) := by
  have h4 : Real.sqrt 4 = 2 := by
    rw [show (4 : ℝ) = 2 * 2 by norm_num]
    exact Real.sqrt_mul_self (by norm_num)
  have hrd : rotatedDiff realMath (exampleTracker (exampleSpacing false 2 1 false 0) 0 0 0)
      ⟨0, 0⟩ ⟨0, 2⟩ = ⟨0, 2⟩ := by
    simp [rotatedDiff, currentRotation, exampleTracker, exampleSpacing, QPointF.sub]
    norm_num
  refine ⟨by norm_num, ?_⟩
  exact (elliptical_step_law (exampleTracker (exampleSpacing false 2 1 false 0) 0 0 0)
    ⟨0, 0⟩ ⟨0, 2⟩ 2 1 0 0 0 2 4 0 (-1) 4 (1 / 2)
    (by norm_num [exampleTracker, exampleSpacing])
    (by norm_num [exampleTracker, exampleSpacing])
    rfl rfl
    (by rw [hrd]; norm_num)
    (by rw [hrd]; norm_num)
    (by norm_num) (by norm_num) (by norm_num) (by norm_num)
    (by rw [h4]; norm_num)
    (by norm_num)).2.1 (by norm_num) (by norm_num)

/-- C20: the elliptical dab lands exactly on the ellipse boundary.  With
accumulated offset `(x, y)`, radii `a = max(0.5, spacing.x)` and
`b = max(0.5, spacing.y)` and a segment with `start` different from `end_`
whose absolute rotated delta is `(dx, dy)`: whenever
`getNextPointPositionAnisotropic` returns a solution `t ≥ 0`, it satisfies
`((x + t*dx)/a)^2 + ((y + t*dy)/b)^2 = 1`. -/
theorem elliptical_dab_on_boundary (s : Private ℝ) (start end_ : QPointF ℝ)
    (a b x y dx dy t : ℝ)
    (ha : a = max 0.5 s.spacing.spacing.x) (hb : b = max 0.5 s.spacing.spacing.y)
    (hx : x = s.accumDistance.x) (hy : y = s.accumDistance.y)
    (hdx : dx = |(rotatedDiff realMath s start end_).x|)
    (hdy : dy = |(rotatedDiff realMath s start end_).y|)
    (hne : ¬ (start.x = end_.x ∧ start.y = end_.y))
    (ht : t = (getNextPointPositionAnisotropic realMath s start end_).1)
    (h0 : 0 ≤ t) :
    ((x + t * dx) / a) ^ 2 + ((y + t * dy) / b) ^ 2 = 1 := by
  obtain ⟨alpha, halpha⟩ : ∃ alpha : ℝ, alpha = (dx / a) ^ 2 + (dy / b) ^ 2 := ⟨_, rfl⟩
  obtain ⟨beta, hbeta⟩ : ∃ beta : ℝ, beta = x * dx / a ^ 2 + y * dy / b ^ 2 := ⟨_, rfl⟩
  obtain ⟨gamma, hgamma⟩ : ∃ gamma : ℝ, gamma = (x / a) ^ 2 + (y / b) ^ 2 - 1 := ⟨_, rfl⟩
  obtain ⟨D, hD⟩ : ∃ D : ℝ, D = beta ^ 2 - alpha * gamma := ⟨_, rfl⟩
  have hα := ellipse_alpha_pos s start end_ a b dx dy alpha ha hb hdx hdy halpha hne
  have h := anisotropic_cases s start end_ a b x y dx dy alpha beta gamma D
    ha hb hx hy hdx hdy halpha hbeta hgamma hD hne
  rw [h] at ht
  split_ifs at ht with hDpos hk
  · simp only at ht
    have hs := Real.sq_sqrt hDpos
    have hmul : alpha * t = -beta + Real.sqrt D := by
      rw [ht]
      field_simp
    have hroot : alpha * t + beta = Real.sqrt D := by linarith
    have hsq : (alpha * t + beta) ^ 2 = D := by rw [hroot, hs]
    have hquad : alpha * (alpha * t ^ 2 + 2 * beta * t + gamma) = 0 := by
      linear_combination hsq + hD
    have hzero := (mul_eq_zero.mp hquad).resolve_left (ne_of_gt hα)
    rw [halpha, hbeta, hgamma] at hzero
    linear_combination hzero
  · simp only at ht
    linarith
  · simp only at ht
    linarith

/-- Witness of C20: radii 2 and 1, accumulated offset (0,0), the segment from
(0,0) to (0,2): the solver returns 1/2, and the offset moved by half of the
delta (0,2) is (0,1), on the ellipse. -/
theorem elliptical_dab_on_boundary_witness :
    (getNextPointPositionAnisotropic realMath
        (exampleTracker (exampleSpacing false 2 1 false 0) 0 0 0) ⟨0, 0⟩ ⟨0, 2⟩).1 = 1 / 2 ∧
    (((0 : ℝ) + 1 / 2 * 0) / 2) ^ 2 + (((0 : ℝ) + 1 / 2 * 2) / 1) ^ 2 = 1 := by
  have h4 : Real.sqrt 4 = 2 := by
    rw [show (4 : ℝ) = 2 * 2 by norm_num]
    exact Real.sqrt_mul_self (by norm_num)
  have hrd : rotatedDiff realMath (exampleTracker (exampleSpacing false 2 1 false 0) 0 0 0)
      ⟨0, 0⟩ ⟨0, 2⟩ = ⟨0, 2⟩ := by
    simp [rotatedDiff, currentRotation, exampleTracker, exampleSpacing, QPointF.sub]
    norm_num
  have ht : (getNextPointPositionAnisotropic realMath
      (exampleTracker (exampleSpacing false 2 1 false 0) 0 0 0) ⟨0, 0⟩ ⟨0, 2⟩).1 = 1 / 2 := by
    simp [getNextPointPositionAnisotropic, exampleTracker, exampleSpacing, pow2, QPointF.sub,
      realMath]
    norm_num [h4]
  refine ⟨ht, ?_⟩
  exact elliptical_dab_on_boundary (exampleTracker (exampleSpacing false 2 1 false 0) 0 0 0)
    ⟨0, 0⟩ ⟨0, 2⟩ 2 1 0 0 0 2 (1 / 2)
    (by norm_num [exampleTracker, exampleSpacing])
    (by norm_num [exampleTracker, exampleSpacing])
    rfl rfl
    (by rw [hrd]; norm_num)
    (by rw [hrd]; norm_num)
    (by norm_num)
    ht.symm (by norm_num)

/-- The invariant of the elliptical solver in exact arithmetic.  With `qreal`
read as an exact number, for a fixed anisotropic spacing configuration and a
tracker with zero accumulated distance, after every sequence `qs` of
`getNextPointPosition` calls, i.e. before each further call `q`: the
accumulated offset `(x, y)` has non-negative components and lies strictly
inside the spacing ellipse, the discriminant `D = beta^2 - alpha*gamma` of the
call is not negative, and on a segment with distinct end points the solver
takes one of its two regular branches.  The program rounds every operation,
and there the invariant fails, as the failing input of C17 shows. -/
theorem discriminant_nonneg_exact (s : Private ℝ) (qs : List (Segment ℝ)) (q : Segment ℝ)
    (a b x y dx dy alpha beta gamma D k : ℝ)
    (hiso : s.spacing.isIsotropic = false) (hzero : s.accumDistance = ⟨0, 0⟩)
    (ha : a = max 0.5 s.spacing.spacing.x) (hb : b = max 0.5 s.spacing.spacing.y)
    (hx : x = (queryAll realMath s qs).2.accumDistance.x)
    (hy : y = (queryAll realMath s qs).2.accumDistance.y)
    (hdx : dx = |(rotatedDiff realMath (queryAll realMath s qs).2 q.start q.end_).x|)
    (hdy : dy = |(rotatedDiff realMath (queryAll realMath s qs).2 q.start q.end_).y|)
    (halpha : alpha = (dx / a) ^ 2 + (dy / b) ^ 2)
    (hbeta : beta = x * dx / a ^ 2 + y * dy / b ^ 2)
    (hgamma : gamma = (x / a) ^ 2 + (y / b) ^ 2 - 1)
    (hD : D = beta ^ 2 - alpha * gamma)
    (hk : k = (-beta + Real.sqrt D) / alpha) :
    0 ≤ x ∧ 0 ≤ y ∧ (x / a) ^ 2 + (y / b) ^ 2 < 1 ∧ 0 ≤ D ∧
    (¬ (q.start.x = q.end_.x ∧ q.start.y = q.end_.y) →
      getNextPointPositionAnisotropic realMath (queryAll realMath s qs).2 q.start q.end_ =
        if 0 ≤ k ∧ k ≤ 1 then (k, resetAccumulators (queryAll realMath s qs).2)
        else (-1, { (queryAll realMath s qs).2 with accumDistance := ⟨x + dx, y + dy⟩ })) := by
  have h0 : insideEllipse s := by
    simp [insideEllipse, hzero]
  obtain ⟨hin, hsp⟩ := queryAll_insideEllipse qs s hiso h0
  have ha2 : a = max 0.5 (queryAll realMath s qs).2.spacing.spacing.x := by rw [hsp]; exact ha
  have hb2 : b = max 0.5 (queryAll realMath s qs).2.spacing.spacing.y := by rw [hsp]; exact hb
  have hin2 : (x / a) ^ 2 + (y / b) ^ 2 < 1 := by
    rw [hx, hy, ha2, hb2]
    exact hin.2.2
  have hα : 0 ≤ alpha := by
    rw [halpha]
    positivity
  have hDpos : 0 ≤ D := by
    rw [hD]
    exact discriminant_nonneg alpha beta gamma hα (by rw [hgamma]; linarith)
  refine ⟨by rw [hx]; exact hin.1, by rw [hy]; exact hin.2.1, hin2, hDpos, ?_⟩
  intro hne
  rw [anisotropic_cases (queryAll realMath s qs).2 q.start q.end_ a b x y dx dy alpha beta gamma D
    ha2 hb2 hx hy hdx hdy halpha hbeta hgamma hD hne, if_pos hDpos, ← hk]

/-- An instance of `discriminant_nonneg_exact`: radii 2 and 1, no rotation, zero accumulated distance.
After the call about the segment from (0,0) to (1,0), which returns -1 and
leaves the offset (1,0), the call about the segment from (1,0) to (1,2) has
`alpha = 4`, `beta = 0`, `gamma = -3/4` and the discriminant 3. -/
theorem discriminant_nonneg_exact_instance :
    (queryAll realMath (exampleTracker (exampleSpacing false 2 1 false 0) 0 0 0)
        [⟨⟨0, 0⟩, ⟨1, 0⟩, 0, 1⟩]).2.accumDistance = ⟨1, 0⟩ ∧
    ((0 : ℝ) ≤ 1 ∧ (0 : ℝ) ≤ 0 ∧ ((1 : ℝ) / 2) ^ 2 + ((0 : ℝ) / 1) ^ 2 < 1 ∧ (0 : ℝ) ≤ 3) := by
  have hq : Real.sqrt (1 / 4) = 1 / 2 := by
    rw [show ((1 : ℝ) / 4) = (1 / 2) * (1 / 2) by norm_num]
    exact Real.sqrt_mul_self (by norm_num)
  have hrd1 : rotatedDiff realMath (exampleTracker (exampleSpacing false 2 1 false 0) 0 0 0)
      ⟨0, 0⟩ ⟨1, 0⟩ = ⟨1, 0⟩ := by
    simp [rotatedDiff, currentRotation, exampleTracker, exampleSpacing, QPointF.sub]
    norm_num
  have han : getNextPointPositionAnisotropic realMath
      (exampleTracker (exampleSpacing false 2 1 false 0) 0 0 0) ⟨0, 0⟩ ⟨1, 0⟩ =
      (-1, exampleTracker (exampleSpacing false 2 1 false 0) 1 0 0) := by
    rw [anisotropic_cases (exampleTracker (exampleSpacing false 2 1 false 0) 0 0 0)
      ⟨0, 0⟩ ⟨1, 0⟩ 2 1 0 0 1 0 (1 / 4) 0 (-1) (1 / 4)
      (by norm_num [exampleTracker, exampleSpacing])
      (by norm_num [exampleTracker, exampleSpacing])
      rfl rfl (by rw [hrd1]; norm_num) (by rw [hrd1]; norm_num)
      (by norm_num) (by norm_num) (by norm_num) (by norm_num) (by norm_num)]
    rw [hq]
    norm_num [exampleTracker]
  have hstate : (queryAll realMath (exampleTracker (exampleSpacing false 2 1 false 0) 0 0 0)
      [⟨⟨0, 0⟩, ⟨1, 0⟩, 0, 1⟩]).2 = exampleTracker (exampleSpacing false 2 1 false 0) 1 0 0 := by
    rw [queryAll_cons, getNextPointPosition_untimed _ _ _ _ _ rfl]
    have hsf : spaceFactor realMath (exampleTracker (exampleSpacing false 2 1 false 0) 0 0 0)
        ⟨0, 0⟩ ⟨1, 0⟩ = (-1, exampleTracker (exampleSpacing false 2 1 false 0) 1 0 0) := by
      rw [← han]
      simp [spaceFactor, exampleTracker, exampleSpacing]
    rw [hsf]
    rfl
  have hrd2 : rotatedDiff realMath (exampleTracker (exampleSpacing false 2 1 false 0) 1 0 0)
      ⟨1, 0⟩ ⟨1, 2⟩ = ⟨0, 2⟩ := by
    simp [rotatedDiff, currentRotation, exampleTracker, exampleSpacing, QPointF.sub]
    norm_num
  have h := discriminant_nonneg_exact
    (exampleTracker (exampleSpacing false 2 1 false 0) 0 0 0)
    [⟨⟨0, 0⟩, ⟨1, 0⟩, 0, 1⟩] ⟨⟨1, 0⟩, ⟨1, 2⟩, 1, 2⟩
    2 1 1 0 0 2 4 0 (-3 / 4) 3 ((-0 + Real.sqrt 3) / 4)
    rfl rfl
    (by norm_num [exampleTracker, exampleSpacing])
    (by norm_num [exampleTracker, exampleSpacing])
    (by rw [hstate]; rfl) (by rw [hstate]; rfl)
    (by rw [hstate, hrd2]; norm_num) (by rw [hstate, hrd2]; norm_num)
    (by norm_num) (by norm_num) (by norm_num) (by norm_num) rfl
  refine ⟨by rw [hstate]; rfl, h.1, h.2.1, h.2.2.1, h.2.2.2.1⟩

/-- C18, the code at the failing inputs.  Radii 2 and 1, zero accumulated
distance.  In an unflipped coordinate system, for the segment from (0,0) to
(1,0): with the rotation pi/2 the solver returns 1 and resets, with the
rotation -pi/2 (which the test `currentRotation > eps` leaves unrotated) it
returns -1 and accumulates (1,0).  In a flipped coordinate system, where both
angles are rotated, for the segment from (0,0) to (1,1): with the rotation
pi/4 the solver returns -1, with the rotation -pi/4 it returns sqrt(2)/2. -/
theorem rotation_sign_failing_input :
    (getNextPointPositionAnisotropic realMath
        (exampleTracker (exampleEllipse 2 1 (Real.pi / 2) false) 0 0 0) ⟨0, 0⟩ ⟨1, 0⟩ =
      (1, exampleTracker (exampleEllipse 2 1 (Real.pi / 2) false) 0 0 0) ∧
    getNextPointPositionAnisotropic realMath
        (exampleTracker (exampleEllipse 2 1 (-(Real.pi / 2)) false) 0 0 0) ⟨0, 0⟩ ⟨1, 0⟩ =
      (-1, exampleTracker (exampleEllipse 2 1 (-(Real.pi / 2)) false) 1 0 0)) ∧
    ((getNextPointPositionAnisotropic realMath
        (exampleTracker (exampleEllipse 2 1 (Real.pi / 4) true) 0 0 0) ⟨0, 0⟩ ⟨1, 1⟩).1 = -1 ∧
    (getNextPointPositionAnisotropic realMath
        (exampleTracker (exampleEllipse 2 1 (-(Real.pi / 4)) true) 0 0 0) ⟨0, 0⟩ ⟨1, 1⟩).1 =
      Real.sqrt 2 / 2) ∧
    (getNextPointPositionAnisotropic realMath
        (exampleTracker (exampleEllipse 2 1 (Real.pi / 2) false) 0 0 0) ⟨0, 0⟩ ⟨1, 0⟩).1 ≠
      (getNextPointPositionAnisotropic realMath
        (exampleTracker (exampleEllipse 2 1 (-(Real.pi / 2)) false) 0 0 0) ⟨0, 0⟩ ⟨1, 0⟩).1 ∧
    (getNextPointPositionAnisotropic realMath
        (exampleTracker (exampleEllipse 2 1 (Real.pi / 4) true) 0 0 0) ⟨0, 0⟩ ⟨1, 1⟩).1 ≠
      (getNextPointPositionAnisotropic realMath
        (exampleTracker (exampleEllipse 2 1 (-(Real.pi / 4)) true) 0 0 0) ⟨0, 0⟩ ⟨1, 1⟩).1 := by
  have h1 := rotation_quarter_turn
  have h2 := rotation_eighth_turn_flipped
  refine ⟨h1, h2, ?_, ?_⟩
  · rw [h1.1, h1.2]
    norm_num
  · rw [h2.1, h2.2]
    have : 0 ≤ Real.sqrt 2 / 2 := by positivity
    intro hc
    linarith

/-- C19: queries change only the accumulators.  `getNextPointPosition` leaves
the current spacing, the last position, time, drawing angle and paint
information, both validity flags, the total distance and the locked drawing
angle (flag and value) unchanged: the tracker afterwards is the tracker before
with new values of `accumDistance` and `accumTime` only.  A locked drawing
angle set by `setLockedDrawingAngle(a)` stays set with the value `a` through
every sequence of `getNextPointPosition`, `registerPaintedDab` and
`overrideLastValues` calls, and every call other than `registerPaintedDab`
leaves the spacing configuration unchanged. -/
theorem queries_change_only_accumulators (angle : KisPaintInformation ℝ → Private ℝ → ℝ)
    (s : Private ℝ) :
    (∀ (start end_ : QPointF ℝ) (startTime endTime : ℝ),
      (getNextPointPosition realMath s start end_ startTime endTime).2 =
          { s with
            accumDistance :=
              (getNextPointPosition realMath s start end_ startTime endTime).2.accumDistance
            accumTime :=
              (getNextPointPosition realMath s start end_ startTime endTime).2.accumTime } ∧
        (getNextPointPosition realMath s start end_ startTime endTime).2.spacing = s.spacing ∧
        (getNextPointPosition realMath s start end_ startTime endTime).2.lastPosition =
          s.lastPosition ∧
        (getNextPointPosition realMath s start end_ startTime endTime).2.lastTime = s.lastTime ∧
        (getNextPointPosition realMath s start end_ startTime endTime).2.lastAngle =
          s.lastAngle ∧
        (getNextPointPosition realMath s start end_ startTime endTime).2.lastPaintInformation =
          s.lastPaintInformation ∧
        (getNextPointPosition realMath s start end_ startTime endTime).2.lastDabInfoValid =
          s.lastDabInfoValid ∧
        (getNextPointPosition realMath s start end_ startTime endTime).2.lastPaintInfoValid =
          s.lastPaintInfoValid ∧
        scalarDistanceApprox (getNextPointPosition realMath s start end_ startTime endTime).2 =
          scalarDistanceApprox s ∧
        (getNextPointPosition realMath s start end_ startTime endTime).2.hasLockedDrawingAngle =
          s.hasLockedDrawingAngle ∧
        (getNextPointPosition realMath s start end_ startTime endTime).2.lockedDrawingAngle =
          s.lockedDrawingAngle) ∧
    (∀ (a : ℝ) (cs : List (Call ℝ)),
      (∀ c ∈ cs, ∀ a0 : ℝ, c ≠ Call.setLockedDrawingAngle a0) →
      (runAll realMath angle (setLockedDrawingAngle s a) cs).hasLockedDrawingAngle = true ∧
        (runAll realMath angle (setLockedDrawingAngle s a) cs).lockedDrawingAngle = a) ∧
    (∀ c : Call ℝ,
      (∀ (info : KisPaintInformation ℝ) (spacing : KisSpacingInformation ℝ),
        c ≠ Call.registerPaintedDab info spacing) →
      (Call.run realMath angle s c).spacing = s.spacing) := by
  refine ⟨?_, ?_, ?_⟩
  · intro start end_ startTime endTime
    have h := getNextPointPosition_frame s start end_ startTime endTime
    have f1 := congrArg Private.spacing h
    have f2 := congrArg Private.lastPosition h
    have f3 := congrArg Private.lastTime h
    have f4 := congrArg Private.lastAngle h
    have f5 := congrArg Private.lastPaintInformation h
    have f6 := congrArg Private.lastDabInfoValid h
    have f7 := congrArg Private.lastPaintInfoValid h
    have f8 := congrArg Private.totalDistance h
    have f9 := congrArg Private.hasLockedDrawingAngle h
    have f10 := congrArg Private.lockedDrawingAngle h
    exact ⟨h, f1, f2, f3, f4, f5, f6, f7, f8, f9, f10⟩
  · intro a cs hcs
    exact runAll_locked angle cs (setLockedDrawingAngle s a) hcs
  · intro c hc
    cases c with
    | registerPaintedDab info spacing => exact absurd rfl (hc info spacing)
    | getNextPointPosition start end_ startTime endTime =>
      exact getNextPointPosition_spacing s start end_ startTime endTime
    | overrideLastValues lastPosition lastTime => rfl
    | setLockedDrawingAngle a => rfl

/-- Witness of C19: the drawing angle is locked at 5, then a query, a
registered dab and an override of the last values follow: the angle is still
locked at 5. -/
theorem queries_change_only_accumulators_witness :
    (runAll realMath (fun _ _ => 0)
        (setLockedDrawingAngle (exampleTracker (exampleSpacing true 10 10 false 0) 0 0 0) 5)
        [Call.getNextPointPosition ⟨0, 0⟩ ⟨15, 0⟩ 0 1,
          Call.registerPaintedDab ⟨⟨10, 0⟩, 1, 0⟩ (exampleSpacing true 20 20 false 0),
          Call.overrideLastValues ⟨1, 1⟩ 2]).hasLockedDrawingAngle = true ∧
    (runAll realMath (fun _ _ => 0)
        (setLockedDrawingAngle (exampleTracker (exampleSpacing true 10 10 false 0) 0 0 0) 5)
        [Call.getNextPointPosition ⟨0, 0⟩ ⟨15, 0⟩ 0 1,
          Call.registerPaintedDab ⟨⟨10, 0⟩, 1, 0⟩ (exampleSpacing true 20 20 false 0),
          Call.overrideLastValues ⟨1, 1⟩ 2]).lockedDrawingAngle = 5 :=
  (queries_change_only_accumulators (fun _ _ => 0)
    (exampleTracker (exampleSpacing true 10 10 false 0) 0 0 0)).2.1 5
    [Call.getNextPointPosition ⟨0, 0⟩ ⟨15, 0⟩ 0 1,
      Call.registerPaintedDab ⟨⟨10, 0⟩, 1, 0⟩ (exampleSpacing true 20 20 false 0),
      Call.overrideLastValues ⟨1, 1⟩ 2]
    (by
      intro c hc a0
      simp only [List.mem_cons, List.mem_singleton, List.not_mem_nil, or_false] at hc
      rcases hc with rfl | rfl | rfl <;> exact fun h => Call.noConfusion h)

/-- C17, the code at the failing input, in double precision.  The spacing
radii are the doubles nearest to 1.3 and 1, without rotation, and the
accumulated distance is zero.  The segments (0.9,0)-(1.9,0), (1.9,0)-(2.2,0) and
(2.2,0)-(2.2,1), with the coordinates and their differences rounded to doubles,
give the deltas of the three steps.  The first two steps return -1 and
accumulate; after them the offset is x = 2927339757790823 / 2^51
(1.3000000000000003), larger than the radius, so it is outside the ellipse; in
the third step the discriminant is -1 / 2^51 and the `BUG` branch is taken.
With the integer radii 17 and 34 and the deltas (15,0) and (0,16), two steps
return -1 and leave the offset (15,16), which is on the ellipse and not
strictly inside it. -/
theorem discriminant_negative_failing_input :
    (anisotropicStepsRounded roundDouble sqrtDouble
        (exampleTracker (exampleEllipse (roundDouble (13 / 10)) 1 0 false) 0 0 0)
        [⟨roundDouble (roundDouble (19 / 10) - roundDouble (9 / 10)), 0⟩,
          ⟨roundDouble (roundDouble (22 / 10) - roundDouble (19 / 10)), 0⟩,
          ⟨0, 1⟩]).1 = [(-1, false), (-1, false), (-1, true)] ∧
    (anisotropicStepsRounded roundDouble sqrtDouble
        (exampleTracker (exampleEllipse (roundDouble (13 / 10)) 1 0 false) 0 0 0)
        [⟨roundDouble (roundDouble (19 / 10) - roundDouble (9 / 10)), 0⟩,
          ⟨roundDouble (roundDouble (22 / 10) - roundDouble (19 / 10)), 0⟩]).2.accumDistance.x =
      2927339757790823 / 2251799813685248 ∧
    (anisotropicStepsRounded roundDouble sqrtDouble
        (exampleTracker (exampleEllipse (roundDouble (13 / 10)) 1 0 false) 0 0 0)
        [⟨roundDouble (roundDouble (19 / 10) - roundDouble (9 / 10)), 0⟩,
          ⟨roundDouble (roundDouble (22 / 10) - roundDouble (19 / 10)), 0⟩]).2.accumDistance.y =
      0 ∧
    roundDouble (13 / 10) <
      (anisotropicStepsRounded roundDouble sqrtDouble
        (exampleTracker (exampleEllipse (roundDouble (13 / 10)) 1 0 false) 0 0 0)
        [⟨roundDouble (roundDouble (19 / 10) - roundDouble (9 / 10)), 0⟩,
          ⟨roundDouble (roundDouble (22 / 10) - roundDouble (19 / 10)), 0⟩]).2.accumDistance.x ∧
    D_4Rounded roundDouble
        (anisotropicStepsRounded roundDouble sqrtDouble
          (exampleTracker (exampleEllipse (roundDouble (13 / 10)) 1 0 false) 0 0 0)
          [⟨roundDouble (roundDouble (19 / 10) - roundDouble (9 / 10)), 0⟩,
            ⟨roundDouble (roundDouble (22 / 10) - roundDouble (19 / 10)), 0⟩]).2
        ⟨0, 1⟩ = -(1 / 2251799813685248) ∧
    (anisotropicStepsRounded roundDouble sqrtDouble
        (exampleTracker (exampleEllipse 17 34 0 false) 0 0 0)
        [⟨15, 0⟩, ⟨0, 16⟩]).1 = [(-1, false), (-1, false)] ∧
    ((anisotropicStepsRounded roundDouble sqrtDouble
        (exampleTracker (exampleEllipse 17 34 0 false) 0 0 0)
        [⟨15, 0⟩, ⟨0, 16⟩]).2.accumDistance.x / 17) ^ 2 +
      ((anisotropicStepsRounded roundDouble sqrtDouble
        (exampleTracker (exampleEllipse 17 34 0 false) 0 0 0)
        [⟨15, 0⟩, ⟨0, 16⟩]).2.accumDistance.y / 34) ^ 2 = 1 := by
  decide!

end KisDistanceInformation

end Krita
